import Mathlib

/-!
# assemblyTranslator: X-architecture binary to x86-64 assembly

A shallow embedding of `src/main.c`.  The program reads a binary file two
bytes at a time, decodes one X instruction per loop iteration and prints
x86-64 assembly text.

Modelling conventions:

* a byte (`unsigned char`) is a `Fin 256`; decoded fields are `Nat`;
* `unsigned int labelAddress` is a `Nat` kept below `2 ^ 32`, every update
  is reduced modulo `2 ^ 32`;
* the open file `fin` is the list of bytes not yet read, `fread` of one byte
  takes the head of that list and fails on the empty list;
* standard output is the list of the strings printed by the successive
  `printf` calls, in order (each string is the complete text of one call,
  newline included);
* `fread(&bufferTemp0, 1, 1, fin)` into a zero-initialised `unsigned short`
  stores the byte in the low half (little-endian host, the x86-64 target of
  the translator).
-/

namespace AssemblyTranslator

/-- An `unsigned char`. -/
abbrev Byte := Fin 256

/-! ## Register tables (`main.c`, lines 14-137) -/

/-- The function `getReg8` of `main.c` (lines 14-45). -/
def getReg8 (regX : Nat) : String :=
  match regX with
  | 0 => "%al"
  | 1 => "%bl"
  | 2 => "%cl"
  | 3 => "%dl"
  | 6 => "%r8b"
  | 7 => "%r9b"
  | 8 => "%r10b"
  | 9 => "%r11b"
  | 10 => "%r12b"
  | 11 => "%r13b"
  | 12 => "%r14b"
  | 13 => "%r15b"
  | _ => "error, can not find register\n"

/-- The function `getReg16` of `main.c` (lines 52-91). -/
def getReg16 (regX : Nat) : String :=
  match regX with
  | 0 => "%ax"
  | 1 => "%bx"
  | 2 => "%cx"
  | 3 => "%dx"
  | 4 => "%si"
  | 5 => "%di"
  | 6 => "%r8w"
  | 7 => "%r9w"
  | 8 => "%r10w"
  | 9 => "%r11w"
  | 10 => "%r12w"
  | 11 => "%r13w"
  | 12 => "%r14w"
  | 13 => "%r15w"
  | 14 => "%bp"
  | 15 => "%sp"
  | _ => "error, can not find register\n"

/-- The function `getReg64` of `main.c` (lines 98-137). -/
def getReg64 (regX : Nat) : String :=
  match regX with
  | 0 => "%rax"
  | 1 => "%rbx"
  | 2 => "%rcx"
  | 3 => "%rdx"
  | 4 => "%rsi"
  | 5 => "%rdi"
  | 6 => "%r8"
  | 7 => "%r9"
  | 8 => "%r10"
  | 9 => "%r11"
  | 10 => "%r12"
  | 11 => "%r13"
  | 12 => "%r14"
  | 13 => "%r15"
  | 14 => "%rbp"
  | 15 => "%rsp"
  | _ => "error, can not find register\n"

/-! ## `printf` conversions and `unsigned int` arithmetic -/

/-- The conversion `%04x` of `printf`: lowercase hexadecimal, padded with
zeros on the left to at least four digits. -/
def fmt04x (n : Nat) : String :=
  String.mk (List.replicate (4 - (Nat.toDigits 16 n).length) '0' ++ Nat.toDigits 16 n)

/-- The conversion `%hu` of `printf` on an `unsigned short`. -/
def fmtHu (n : Nat) : String :=
  String.mk (Nat.toDigits 10 (n % 65536))

/-- Addition of `unsigned int`. -/
def uadd32 (a b : Nat) : Nat := (a + b) % 4294967296

/-- Subtraction of `unsigned int`: the difference modulo `2 ^ 32`. -/
def usub32 (a b : Nat) : Nat :=
  if b % 4294967296 ≤ a % 4294967296 then a % 4294967296 - b % 4294967296
  else 4294967296 - (b % 4294967296 - a % 4294967296)

/-! ## Field extraction (`main.c`, lines 200-205) -/

/-- The field `operand = (buffer0 >> 6) & 0x03`. -/
def operand (buffer0 : Byte) : Nat := (buffer0.val >>> 6) &&& 0x03

/-- The field `thirdBit = (buffer0 >> 5) & 0x01`. -/
def thirdBit (buffer0 : Byte) : Nat := (buffer0.val >>> 5) &&& 0x01

/-- The field `restBits = buffer0 & 0x1f`. -/
def restBits (buffer0 : Byte) : Nat := buffer0.val &&& 0x1f

/-- The field `buf1Reg1 = (buffer1 >> 4) & 0x0f`. -/
def buf1Reg1 (buffer1 : Byte) : Nat := (buffer1.val >>> 4) &&& 0x0f

/-- The field `buf1Reg2 = buffer1 & 0x0f`. -/
def buf1Reg2 (buffer1 : Byte) : Nat := buffer1.val &&& 0x0f

/-! ## The four branches of the dispatch (`main.c`, lines 214-439) -/

/-- The 0-operand branch (lines 214-229): the text printed and the new value
of `debugMode`. -/
def zeroOperand (restBits debugMode : Nat) : List String × Nat :=
  if restBits = 1 then (["    ret\n"], debugMode)
  else if restBits = 2 then ([], 0)
  else if restBits = 3 then ([], 1)
  else ([], debugMode)

/-- The 1-operand branch (lines 233-304): the text printed.  The argument
`labelAddress` is the counter after the increment of line 235. -/
def oneOperand (thirdBit restBits buf1Reg1 : Nat) (buffer1 : Byte) (labelAddress : Nat) :
    List String :=
  if thirdBit = 0 then
    match restBits with
    | 1 => ["    neg " ++ getReg64 buf1Reg1 ++ "\n"]
    | 2 => ["    not " ++ getReg64 buf1Reg1 ++ "\n"]
    | 8 => ["    inc " ++ getReg64 buf1Reg1 ++ "\n"]
    | 9 => ["    dec " ++ getReg64 buf1Reg1 ++ "\n"]
    | 3 => ["    push " ++ getReg64 buf1Reg1 ++ "\n"]
    | 4 => ["    pop " ++ getReg64 buf1Reg1 ++ "\n"]
    | 7 => ["    push %rdi\n",
            "    mov " ++ getReg16 buf1Reg1 ++ ", %di\n",
            "    call outchar\n",
            "    pop %rdi\n"]
    | _ => []
  else if thirdBit = 1 then
    if restBits = 1 then
      ["    test $1, %r15\n",
       "    jne .L" ++ fmt04x (usub32 (uadd32 labelAddress buffer1.val) 2) ++ "\n"]
    else if restBits = 2 then
      ["    jmp .L" ++ fmt04x (usub32 (uadd32 labelAddress buffer1.val) 2) ++ "\n"]
    else []
  else []

/-- The 2-operand branch (lines 308-390): the text printed. -/
def twoOperand (restBits buf1Reg1 buf1Reg2 : Nat) : List String :=
  match restBits with
  | 1 => ["    add " ++ getReg64 buf1Reg1 ++ ", " ++ getReg64 buf1Reg2 ++ "\n"]
  | 2 => ["    sub " ++ getReg64 buf1Reg1 ++ ", " ++ getReg64 buf1Reg2 ++ "\n"]
  | 3 => ["    imul " ++ getReg64 buf1Reg1 ++ ", " ++ getReg64 buf1Reg2 ++ "\n"]
  | 5 => ["    and " ++ getReg64 buf1Reg1 ++ ", " ++ getReg64 buf1Reg2 ++ "\n"]
  | 6 => ["    or " ++ getReg64 buf1Reg1 ++ ", " ++ getReg64 buf1Reg2 ++ "\n"]
  | 7 => ["    xor " ++ getReg64 buf1Reg1 ++ ", " ++ getReg64 buf1Reg2 ++ "\n"]
  | 10 => ["    test " ++ getReg64 buf1Reg1 ++ ", " ++ getReg64 buf1Reg2 ++ "\n",
           "    setnz %r15b\n"]
  | 11 => ["    cmp " ++ getReg64 buf1Reg1 ++ ", " ++ getReg64 buf1Reg2 ++ "\n",
           "    setg %r15b\n"]
  | 12 => ["    cmp " ++ getReg64 buf1Reg1 ++ ", " ++ getReg64 buf1Reg2 ++ "\n",
           "    sete %r15b\n"]
  | 13 => ["    mov " ++ getReg64 buf1Reg1 ++ ", " ++ getReg64 buf1Reg2 ++ "\n"]
  | 14 => ["    mov (" ++ getReg64 buf1Reg1 ++ "), " ++ getReg64 buf1Reg2 ++ "\n"]
  | 15 => ["    mov " ++ getReg64 buf1Reg1 ++ ", (" ++ getReg64 buf1Reg2 ++ ")\n"]
  | 16 => ["    mov (" ++ getReg64 buf1Reg1 ++ "), " ++ getReg8 buf1Reg2 ++ "\n"]
  | 17 => ["    mov " ++ getReg8 buf1Reg1 ++ ", (" ++ getReg64 buf1Reg2 ++ ")\n"]
  | _ => []

/-- The value `secondInstruction = (bufferTemp0 << 8) | bufferTemp1` of
line 412, an `unsigned short`. -/
def secondInstruction (bufferTemp0 bufferTemp1 : Byte) : Nat :=
  ((bufferTemp0.val <<< 8) ||| bufferTemp1.val) % 65536

/-- The extended branch after its two reads (lines 418-435): the text
printed. -/
def extended (thirdBit restBits buf1Reg1 secondInstruction : Nat) : List String :=
  if thirdBit = 0 then
    if restBits = 1 then ["    jmp .L" ++ fmt04x secondInstruction ++ "\n"]
    else if restBits = 2 then ["    call .L" ++ fmt04x secondInstruction ++ "\n"]
    else []
  else if thirdBit = 1 then
    if restBits = 1 then
      ["    mov $" ++ fmtHu secondInstruction ++ ", " ++ getReg64 buf1Reg1 ++ "\n"]
    else []
  else []

/-! ## The translation loop (`main.c`, lines 157-448) -/

/-- The variables of `main` that live across loop iterations, with the
unread part of the file and the text printed so far. -/
structure State where
  /-- The bytes of the file `fin` that have not been read. -/
  fin : List Byte
  /-- The flag `debugMode`. -/
  debugMode : Nat
  /-- The counter `labelAddress`. -/
  labelAddress : Nat
  /-- The strings printed so far. -/
  out : List String
  deriving DecidableEq, Repr

/-- How one execution of the loop body ends. -/
inductive Outcome where
  /-- The end of the body was reached: the loop goes round again. -/
  | next (s : State)
  /-- The `break` of line 195. -/
  | brk (s : State)
  /-- A `return` inside the loop (lines 184, 190, 402, 408). -/
  | ret (code : Nat) (s : State)
  deriving DecidableEq, Repr

/-- The message printed when a read fails. -/
def readError (fname : String) : String :=
  "Error! Could not read from file '" ++ fname ++ "'"

/-- The label line of line 171. -/
def labelLine (labelAddress : Nat) : String :=
  ".L" ++ fmt04x labelAddress ++ ":\n"

/-- Lines 171-176: the label, then the diagnostic call when `debugMode` is
set. -/
def header (labelAddress debugMode : Nat) : List String :=
  if debugMode ≠ 0 then [labelLine labelAddress, "    call debug\n"]
  else [labelLine labelAddress]

/-- One execution of the body of the `while (1)` loop (lines 168-440). -/
def loopBody (fname : String) (s : State) : Outcome :=
  let out := s.out ++ header s.labelAddress s.debugMode
  match s.fin with
  | [] => .ret 1 { s with out := out ++ [readError fname] }
  | buffer0 :: fin1 =>
    match fin1 with
    | [] => .ret 1 { s with fin := [], out := out ++ [readError fname] }
    | buffer1 :: fin2 =>
      if buffer0 = 0 ∧ buffer1 = 0 then
        .brk { s with fin := fin2, out := out }
      else if operand buffer0 = 0 then
        .next { fin := fin2,
                debugMode := (zeroOperand (restBits buffer0) s.debugMode).2,
                labelAddress := uadd32 s.labelAddress 2,
                out := out ++ (zeroOperand (restBits buffer0) s.debugMode).1 }
      else if operand buffer0 = 1 then
        .next { fin := fin2,
                debugMode := s.debugMode,
                labelAddress := uadd32 s.labelAddress 2,
                out := out ++ oneOperand (thirdBit buffer0) (restBits buffer0)
                  (buf1Reg1 buffer1) buffer1 (uadd32 s.labelAddress 2) }
      else if operand buffer0 = 2 then
        .next { fin := fin2,
                debugMode := s.debugMode,
                labelAddress := uadd32 s.labelAddress 2,
                out := out ++ twoOperand (restBits buffer0) (buf1Reg1 buffer1)
                  (buf1Reg2 buffer1) }
      else if operand buffer0 = 3 then
        match fin2 with
        | [] => .ret 1 { s with fin := [], out := out ++ [readError fname] }
        | bufferTemp0 :: fin3 =>
          match fin3 with
          | [] => .ret 1 { s with fin := [], out := out ++ [readError fname] }
          | bufferTemp1 :: fin4 =>
            .next { fin := fin4,
                    debugMode := s.debugMode,
                    labelAddress := uadd32 s.labelAddress 4,
                    out := out ++ extended (thirdBit buffer0) (restBits buffer0)
                      (buf1Reg1 buffer1) (secondInstruction bufferTemp0 bufferTemp1) }
      else
        .next { s with fin := fin2, out := out }

/-- The prologue of lines 158-161. -/
def prologue : List String :=
  [".global test\n", "test:\n", "    push %rbp\n", "    mov %rsp, %rbp\n"]

/-- The epilogue of lines 443-444. -/
def epilogue : List String :=
  ["    pop %rbp\n", "    ret\n"]

/-- The `while (1)` loop followed by the epilogue (lines 168-448), run for
at most `fuel` iterations: the exit status of `main` and everything printed,
or `none` when the fuel runs out. -/
def mainLoop (fname : String) : Nat → State → Option (Nat × List String)
  | 0, _ => none
  | fuel + 1, s =>
    match loopBody fname s with
    | .next s' => mainLoop fname fuel s'
    | .brk s' => some (0, s'.out ++ epilogue)
    | .ret code s' => some (code, s'.out)

/-- The state on entry to the loop (lines 158-164). -/
def initState (input : List Byte) : State :=
  { fin := input, debugMode := 0, labelAddress := 0, out := prologue }

/-- The function `main` from line 157 on, the file named `fname` being open
with content `input`: exit status and standard output. -/
def translate (fname : String) (input : List Byte) : Option (Nat × List String) :=
  mainLoop fname (input.length + 1) (initState input)

/-- The function `main` of `main.c`: `argv` is the argument vector and
`fopen` gives the content of the files that can be opened for reading. -/
def main (argv : List String) (fopen : String → Option (List Byte)) :
    Option (Nat × List String) :=
  match argv with
  | [] => some (1, ["Error! Lack of argument!\n"])
  | [_] => some (1, ["Error! Lack of argument!\n"])
  | _ :: fname :: _ =>
    match fopen fname with
    | none => some (1, ["Error! Could not open file '" ++ fname ++ "' for reading\n"])
    | some input => translate fname input

/-- The state at the top of the loop after `k` complete iterations, when
none of them left the loop. -/
def iter (fname : String) : Nat → State → Outcome
  | 0, s => .next s
  | k + 1, s =>
    match loopBody fname s with
    | .next s' => iter fname k s'
    | o => o

/-! ## Instruction streams

The vocabulary used to state properties of whole runs: an input that is a
sequence of complete instructions followed by the sentinel. -/

/-- A complete instruction as it lies in the file: two bytes, or four bytes
for the extended class. -/
inductive Instr where
  /-- A two-byte instruction. -/
  | short (b0 b1 : Byte)
  /-- A four-byte instruction. -/
  | ext (b0 b1 b2 b3 : Byte)
  deriving DecidableEq, Repr

namespace Instr

/-- The first byte. -/
def first : Instr → Byte
  | short b0 _ => b0
  | ext b0 _ _ _ => b0

/-- The bytes of the instruction, in file order. -/
def bytes : Instr → List Byte
  | short b0 b1 => [b0, b1]
  | ext b0 b1 b2 b3 => [b0, b1, b2, b3]

/-- A two-byte instruction has operand class 0, 1 or 2 and is not the
sentinel; a four-byte instruction has operand class 3. -/
def WellFormed : Instr → Prop
  | short b0 b1 => operand b0 ≠ 3 ∧ ¬ (b0 = 0 ∧ b1 = 0)
  | ext b0 _ _ _ => operand b0 = 3

instance : DecidablePred WellFormed := fun i =>
  match i with
  | short _ _ => inferInstanceAs (Decidable (_ ∧ _))
  | ext _ _ _ _ => inferInstanceAs (Decidable (_ = _))

/-- The increment of the address counter: 4 for operand class 3, otherwise
2. -/
def incr (i : Instr) : Nat := if operand i.first = 3 then 4 else 2

/-- The text the dispatch prints for the instruction, `labelAddress` being
the address of its label. -/
def text (i : Instr) (labelAddress : Nat) : List String :=
  match i with
  | short b0 b1 =>
    if operand b0 = 0 then (zeroOperand (restBits b0) 0).1
    else if operand b0 = 1 then
      oneOperand (thirdBit b0) (restBits b0) (buf1Reg1 b1) b1 (uadd32 labelAddress 2)
    else if operand b0 = 2 then twoOperand (restBits b0) (buf1Reg1 b1) (buf1Reg2 b1)
    else []
  | ext b0 b1 b2 b3 =>
    extended (thirdBit b0) (restBits b0) (buf1Reg1 b1) (secondInstruction b2 b3)

/-- The value of `debugMode` after the instruction. -/
def debug (i : Instr) (debugMode : Nat) : Nat :=
  if operand i.first = 0 then (zeroOperand (restBits i.first) debugMode).2 else debugMode

/-- The instruction is `cld`: operand class 0, opcode 2. -/
def isCld (i : Instr) : Bool := operand i.first = 0 ∧ restBits i.first = 2

/-- The instruction is `std`: operand class 0, opcode 3. -/
def isStd (i : Instr) : Bool := operand i.first = 0 ∧ restBits i.first = 3

end Instr

/-- Among the `cld` and `std` instructions of `is` there is a most recent
one, and it is `std`. -/
def lastToggleIsStd (is : List Instr) : Bool :=
  match (is.filter (fun i => i.isCld || i.isStd)).getLast? with
  | some i => i.isStd
  | none => false

/-- The dispatch tables: the (operand class, discriminator, opcode)
combinations for which the translator has a case. -/
def inTable (cls disc op : Nat) : Bool :=
  (cls = 0 ∧ op ∈ [1, 2, 3]) ∨
  (cls = 1 ∧ disc = 0 ∧ op ∈ [1, 2, 3, 4, 7, 8, 9]) ∨
  (cls = 1 ∧ disc = 1 ∧ op ∈ [1, 2]) ∨
  (cls = 2 ∧ op ∈ [1, 2, 3, 5, 6, 7, 10, 11, 12, 13, 14, 15, 16, 17]) ∨
  (cls = 3 ∧ disc = 0 ∧ op ∈ [1, 2]) ∨
  (cls = 3 ∧ disc = 1 ∧ op = 1)

/-- The file made of the instructions `is` followed by the sentinel. -/
def stream (is : List Instr) : List Byte :=
  (is.map Instr.bytes).flatten ++ [0, 0]

/-- The address counter after the instructions `is`, starting from `a`. -/
def addrAfter (is : List Instr) (a : Nat) : Nat :=
  is.foldl (fun x i => uadd32 x i.incr) a

/-- The flag `debugMode` after the instructions `is`, starting from `d`. -/
def debugAfter (is : List Instr) (d : Nat) : Nat :=
  is.foldl (fun x i => i.debug x) d

/-- The text printed by the iterations that translate `is`, starting with
counter `a` and flag `d`. -/
def bodyText : List Instr → Nat → Nat → List String
  | [], _, _ => []
  | i :: is, a, d => header a d ++ i.text a ++ bodyText is (uadd32 a i.incr) (i.debug d)

/-- The sentinel is found at an instruction boundary: the input starts with
complete instructions followed by the sentinel. -/
def IsStream (input : List Byte) : Prop :=
  ∃ (is : List Instr) (rest : List Byte), (∀ i ∈ is, i.WellFormed) ∧ input = stream is ++ rest

/-- Reading instructions forward from the start of the input, two bytes at a
time and four for operand class 3, the pair `0x00 0x00` is met at an
instruction boundary before the bytes run out. -/
def findsSentinel : List Byte → Bool
  | b0 :: b1 :: rest =>
    if b0 = 0 ∧ b1 = 0 then true
    else if operand b0 = 3 then
      match rest with
      | _ :: _ :: rest2 => findsSentinel rest2
      | _ => false
    else findsSentinel rest
  | _ => false

/-- The lowercase hexadecimal digits: `0`-`9` and `a`-`f`. -/
def isLowerHex (c : Char) : Bool :=
  c ∈ "0123456789abcdef".data

/-- The value of a lowercase hexadecimal digit. -/
def hexDigitValue (c : Char) : Nat :=
  "0123456789abcdef".data.indexOf c

/-- The number written by a list of hexadecimal digits, most significant
first. -/
def hexValue (l : List Char) : Nat :=
  l.foldl (fun acc c => 16 * acc + hexDigitValue c) 0

/-- The `k` low hexadecimal digits of `n`, most significant first, with
leading zeros. -/
def hexDigitsOf : Nat → Nat → List Char
  | 0, _ => []
  | k + 1, n => hexDigitsOf k (n / 16) ++ [Nat.digitChar (n % 16)]

/-- The tag of the label of an address: `.L` and the address as `%04x`
prints it. -/
def labelTag (address : Nat) : String :=
  ".L" ++ fmt04x address

/-- The mnemonics of the class-2 opcodes that print `<m> source, destination`
on 64-bit registers. -/
def mnemonic2 : Nat → Option String
  | 1 => some "add"
  | 2 => some "sub"
  | 3 => some "imul"
  | 5 => some "and"
  | 6 => some "or"
  | 7 => some "xor"
  | 13 => some "mov"
  | _ => none

/-- The mnemonics of the class-1 register-form opcodes that print
`<m> register`. -/
def mnemonic1 : Nat → Option String
  | 1 => some "neg"
  | 2 => some "not"
  | 3 => some "push"
  | 4 => some "pop"
  | 8 => some "inc"
  | 9 => some "dec"
  | _ => none

/-- No line of the text begins with a dot. -/
def noDotStart : Char → List Char → Bool
  | _, [] => true
  | prev, c :: cs => !(prev == '\n' && c == '.') && noDotStart c cs

/-- The number of positions of the output at which the two epilogue lines
`    pop %rbp` and `    ret` stand next to each other, in this order. -/
def countEpilogue : List String → Nat
  | a :: b :: t =>
    (if a = "    pop %rbp\n" ∧ b = "    ret\n" then 1 else 0) + countEpilogue (b :: t)
  | _ => 0

/-! ## Basic facts -/

theorem operand_lt (b : Byte) : operand b < 4 :=
  Nat.lt_succ_of_le Nat.and_le_right

theorem zeroOperand_fst (r d : Nat) : (zeroOperand r d).1 = (zeroOperand r 0).1 := by
  unfold zeroOperand; split_ifs <;> rfl

theorem loopBody_instr (fname : String) (i : Instr) (hi : i.WellFormed) (tail : List Byte)
    (d a : Nat) (o : List String) :
    loopBody fname { fin := i.bytes ++ tail, debugMode := d, labelAddress := a, out := o } =
      .next { fin := tail, debugMode := i.debug d, labelAddress := uadd32 a i.incr,
              out := o ++ header a d ++ i.text a } := by
  cases i with
  | short b0 b1 =>
    obtain ⟨h3, hs⟩ := hi
    have hlt := operand_lt b0
    simp only [loopBody, Instr.bytes, List.cons_append, List.nil_append, if_neg hs,
      Instr.debug, Instr.incr, Instr.first, Instr.text, if_neg h3]
    by_cases h0 : operand b0 = 0
    · simp [h0, zeroOperand_fst (restBits b0) d]
    · by_cases h1 : operand b0 = 1
      · simp [h1]
      · by_cases h2 : operand b0 = 2
        · simp [h2]
        · omega
  | ext b0 b1 b2 b3 =>
    have h3 : operand b0 = 3 := hi
    have hs : ¬ (b0 = 0 ∧ b1 = 0) := by
      rintro ⟨rfl, -⟩
      revert h3; decide
    simp [loopBody, Instr.bytes, hs, Instr.debug, Instr.incr, Instr.first, Instr.text, h3]

theorem loopBody_sentinel (fname : String) (rest : List Byte) (d a : Nat) (o : List String) :
    loopBody fname { fin := 0 :: 0 :: rest, debugMode := d, labelAddress := a, out := o } =
      .brk { fin := rest, debugMode := d, labelAddress := a, out := o ++ header a d } := by
  simp [loopBody]

theorem iter_stream (fname : String) (is : List Instr) (hwf : ∀ i ∈ is, i.WellFormed)
    (tail : List Byte) (d a : Nat) (o : List String) :
    iter fname is.length
        { fin := (is.map Instr.bytes).flatten ++ tail, debugMode := d, labelAddress := a,
          out := o } =
      .next { fin := tail, debugMode := debugAfter is d, labelAddress := addrAfter is a,
              out := o ++ bodyText is a d } := by
  induction is generalizing d a o with
  | nil => simp [iter, debugAfter, addrAfter, bodyText]
  | cons i is ih =>
    have hi : i.WellFormed := hwf i (List.mem_cons_self _ _)
    have hrest : ∀ j ∈ is, j.WellFormed := fun j hj => hwf j (List.mem_cons_of_mem _ hj)
    simp only [List.length_cons, iter, List.map_cons, List.flatten_cons, List.append_assoc]
    rw [loopBody_instr fname i hi]
    simp only [ih hrest, debugAfter, addrAfter, List.foldl_cons, bodyText, List.append_assoc]

theorem mainLoop_of_iter (fname : String) (k n : Nat) (s s' : State)
    (h : iter fname k s = .next s') :
    mainLoop fname (k + n) s = mainLoop fname n s' := by
  induction k generalizing s with
  | zero =>
    simp only [iter, Outcome.next.injEq] at h
    simp [h]
  | succ k ih =>
    rw [Nat.succ_add]
    simp only [iter] at h
    simp only [mainLoop]
    cases hb : loopBody fname s with
    | next s1 =>
      rw [hb] at h
      exact ih s1 h
    | brk s1 => rw [hb] at h; cases h
    | ret c s1 => rw [hb] at h; cases h

theorem mainLoop_stream (fname : String) (is : List Instr) (hwf : ∀ i ∈ is, i.WellFormed)
    (rest : List Byte) (d a : Nat) (o : List String) (n : Nat) (hn : is.length < n) :
    mainLoop fname n
        { fin := stream is ++ rest, debugMode := d, labelAddress := a, out := o } =
      some (0, o ++ bodyText is a d ++ header (addrAfter is a) (debugAfter is d) ++
        epilogue) := by
  obtain ⟨m, rfl⟩ : ∃ m, n = is.length + (m + 1) := ⟨n - is.length - 1, by omega⟩
  have h := iter_stream fname is hwf ([0, 0] ++ rest) d a o
  simp only [stream, List.append_assoc]
  rw [mainLoop_of_iter fname is.length (m + 1) _ _ h]
  simp only [mainLoop, List.cons_append, List.nil_append]
  rw [loopBody_sentinel]
  simp

theorem bytes_length (i : Instr) (hi : i.WellFormed) : i.bytes.length = i.incr := by
  cases i with
  | short b0 b1 => simp [Instr.bytes, Instr.incr, Instr.first, hi.1]
  | ext b0 b1 b2 b3 =>
    have h3 : operand b0 = 3 := hi
    simp [Instr.bytes, Instr.incr, Instr.first, h3]

theorem flatten_length (is : List Instr) (hwf : ∀ i ∈ is, i.WellFormed) :
    ((is.map Instr.bytes).flatten).length = (is.map Instr.incr).sum := by
  induction is with
  | nil => simp
  | cons i is ih =>
    have hi : i.WellFormed := hwf i (List.mem_cons_self _ _)
    have hrest : ∀ j ∈ is, j.WellFormed := fun j hj => hwf j (List.mem_cons_of_mem _ hj)
    simp [bytes_length i hi, ih hrest]

theorem addrAfter_eq (is : List Instr) (a : Nat) (h : a + (is.map Instr.incr).sum < 4294967296) :
    addrAfter is a = a + (is.map Instr.incr).sum := by
  induction is generalizing a with
  | nil => simp [addrAfter]
  | cons i is ih =>
    simp only [List.map_cons, List.sum_cons] at h
    have h1 : uadd32 a i.incr = a + i.incr := by
      unfold uadd32; exact Nat.mod_eq_of_lt (by omega)
    simp only [addrAfter, List.foldl_cons, List.map_cons, List.sum_cons] at *
    rw [h1, ih (a + i.incr) (by omega)]
    omega

theorem addrAfter_append (l1 l2 : List Instr) (a : Nat) :
    addrAfter (l1 ++ l2) a = addrAfter l2 (addrAfter l1 a) := by
  simp only [addrAfter, List.foldl_append]

theorem debugAfter_append (l1 l2 : List Instr) (d : Nat) :
    debugAfter (l1 ++ l2) d = debugAfter l2 (debugAfter l1 d) := by
  simp only [debugAfter, List.foldl_append]

theorem bodyText_append (l1 l2 : List Instr) (a d : Nat) :
    bodyText (l1 ++ l2) a d =
      bodyText l1 a d ++ bodyText l2 (addrAfter l1 a) (debugAfter l1 d) := by
  induction l1 generalizing a d with
  | nil => simp [bodyText, addrAfter, debugAfter]
  | cons i l1 ih =>
    show bodyText (i :: (l1 ++ l2)) a d = _
    simp only [bodyText, ih, addrAfter, debugAfter, List.foldl_cons, List.append_assoc]

theorem header_eq_cons (a d : Nat) : ∃ t, header a d = labelLine a :: t := by
  unfold header; split_ifs
  · exact ⟨_, rfl⟩
  · exact ⟨_, rfl⟩

theorem tail_starts_with_label (l : List Instr) (a d : Nat) :
    ∃ t, bodyText l a d ++ header (addrAfter l a) (debugAfter l d) = labelLine a :: t := by
  cases l with
  | nil =>
    obtain ⟨t, ht⟩ := header_eq_cons a d
    exact ⟨t, by simpa [bodyText, addrAfter, debugAfter] using ht⟩
  | cons i l =>
    obtain ⟨t, ht⟩ := header_eq_cons a d
    exact ⟨t ++ (i.text a ++ bodyText l (uadd32 a i.incr) (i.debug d)) ++
      header (addrAfter (i :: l) a) (debugAfter (i :: l) d), by simp [bodyText, ht]⟩

theorem stream_split (is : List Instr) (k : Nat) :
    stream is = ((is.take k).map Instr.bytes).flatten ++ stream (is.drop k) := by
  conv_lhs => rw [← List.take_append_drop k is]
  simp only [stream, List.map_append, List.flatten_append, List.append_assoc]

theorem translate_stream (fname : String) (is : List Instr) (hwf : ∀ i ∈ is, i.WellFormed)
    (rest : List Byte) :
    translate fname (stream is ++ rest) =
      some (0, prologue ++ bodyText is 0 0 ++ header (addrAfter is 0) (debugAfter is 0) ++
        epilogue) := by
  unfold translate initState
  apply mainLoop_stream fname is hwf
  have := flatten_length is hwf
  have h2 : ∀ i ∈ is, 1 ≤ i.incr := fun i _ => by unfold Instr.incr; split_ifs <;> omega
  have h3 : is.length ≤ (is.map Instr.incr).sum := by
    clear this hwf
    induction is with
    | nil => simp
    | cons i is ih =>
      have := h2 i (List.mem_cons_self _ _)
      have := ih (fun j hj => h2 j (List.mem_cons_of_mem _ hj))
      simp only [List.length_cons, List.map_cons, List.sum_cons]
      omega
  simp only [stream, List.length_append, this]
  omega

theorem iter_take (fname : String) (is : List Instr) (hwf : ∀ i ∈ is, i.WellFormed)
    (rest : List Byte) (k : Nat) (hk : k ≤ is.length) :
    iter fname k (initState (stream is ++ rest)) =
      .next { fin := stream (is.drop k) ++ rest, debugMode := debugAfter (is.take k) 0,
              labelAddress := addrAfter (is.take k) 0,
              out := prologue ++ bodyText (is.take k) 0 0 } := by
  have hwf' : ∀ i ∈ is.take k, i.WellFormed := fun i hi => hwf i (List.mem_of_mem_take hi)
  have h := iter_stream fname (is.take k) hwf' (stream (is.drop k) ++ rest) 0 0 prologue
  rw [List.length_take, Nat.min_eq_left hk, ← List.append_assoc, ← stream_split] at h
  exact h

theorem sum_take_le (is : List Instr) (j k : Nat) (hjk : j ≤ k) :
    ((is.take j).map Instr.incr).sum ≤ ((is.take k).map Instr.incr).sum := by
  obtain ⟨m, rfl⟩ : ∃ m, k = j + m := ⟨k - j, by omega⟩
  rw [List.take_add]
  simp

theorem sum_take_le_all (is : List Instr) (k : Nat) :
    ((is.take k).map Instr.incr).sum ≤ (is.map Instr.incr).sum := by
  have h : (is.map Instr.incr).sum =
      ((is.take k).map Instr.incr).sum + ((is.drop k).map Instr.incr).sum := by
    rw [← List.sum_append, ← List.map_append, List.take_append_drop]
  omega

theorem readError_ne_ret (fname : String) : readError fname ≠ "    ret\n" := by
  intro h
  have := congrArg String.data h
  simp [readError] at this

theorem isStream_cons (i : Instr) (hi : i.WellFormed) (fin : List Byte) (h : IsStream fin) :
    IsStream (i.bytes ++ fin) := by
  obtain ⟨is, rest, hwf, rfl⟩ := h
  refine ⟨i :: is, rest, ?_, ?_⟩
  · intro j hj
    rcases List.mem_cons.1 hj with rfl | hj
    · exact hi
    · exact hwf j hj
  · simp [stream]

theorem isStream_length (input : List Byte) (h : IsStream input) : 2 ≤ input.length := by
  obtain ⟨is, rest, -, rfl⟩ := h
  simp only [stream, List.length_append, List.length_cons, List.length_nil]
  omega

theorem mainLoop_mono (fname : String) (n k : Nat) (s : State) (r : Nat × List String)
    (h : mainLoop fname n s = some r) : mainLoop fname (n + k) s = some r := by
  induction n generalizing s with
  | zero => simp [mainLoop] at h
  | succ n ih =>
    rw [Nat.succ_add]
    simp only [mainLoop] at h ⊢
    cases hb : loopBody fname s with
    | next s1 => rw [hb] at h; exact ih s1 h
    | brk s1 => rw [hb] at h; exact h
    | ret c s1 => rw [hb] at h; exact h

theorem not_suffix_of_readError (fname : String) (l : List String) :
    ¬ epilogue <:+ l ++ [readError fname] := by
  rintro ⟨t, ht⟩
  have h : t ++ ["    pop %rbp\n"] ++ ["    ret\n"] = l ++ [readError fname] := by
    rw [← ht]; simp [epilogue]
  have h2 := List.append_inj_right' h rfl
  simp only [List.cons.injEq, and_true] at h2
  exact readError_ne_ret fname h2.symm

theorem findsSentinel_sentinel (rest : List Byte) : findsSentinel (0 :: 0 :: rest) = true := by
  cases rest with
  | nil => rfl
  | cons b rest =>
    cases rest with
    | nil => rfl
    | cons c rest => rfl

theorem findsSentinel_short (b0 b1 : Byte) (rest : List Byte) (hs : ¬ (b0 = 0 ∧ b1 = 0))
    (h3 : operand b0 ≠ 3) : findsSentinel (b0 :: b1 :: rest) = findsSentinel rest := by
  cases rest with
  | nil => simp [findsSentinel, hs, h3]
  | cons b rest =>
    cases rest with
    | nil => simp [findsSentinel, hs, h3]
    | cons c rest => simp [findsSentinel, hs, h3]

theorem mainLoop_status (fname : String) (n : Nat) (fin : List Byte) (d a : Nat)
    (o : List String) (hn : fin.length < n) :
    ∃ out, mainLoop fname n { fin := fin, debugMode := d, labelAddress := a, out := o } =
      some (if findsSentinel fin = true then 0 else 1, out) := by
  induction n generalizing fin d a o with
  | zero => omega
  | succ n ih =>
    match fin, hn with
    | [], _ =>
      exact ⟨o ++ header a d ++ [readError fname], by simp [mainLoop, loopBody, findsSentinel]⟩
    | [b0], _ =>
      exact ⟨o ++ header a d ++ [readError fname], by simp [mainLoop, loopBody, findsSentinel]⟩
    | b0 :: b1 :: fin2, hn =>
      by_cases hs : b0 = 0 ∧ b1 = 0
      · obtain ⟨rfl, rfl⟩ := hs
        exact ⟨o ++ header a d ++ epilogue,
          by simp [mainLoop, loopBody, findsSentinel_sentinel]⟩
      · by_cases h3 : operand b0 = 3
        · match fin2, hn with
          | [], _ =>
            exact ⟨o ++ header a d ++ [readError fname],
              by simp [mainLoop, loopBody, findsSentinel, hs, h3]⟩
          | [b2], _ =>
            exact ⟨o ++ header a d ++ [readError fname],
              by simp [mainLoop, loopBody, findsSentinel, hs, h3]⟩
          | b2 :: b3 :: fin4, hn =>
            have hstep := loopBody_instr fname (Instr.ext b0 b1 b2 b3) h3 fin4 d a o
            simp only [Instr.bytes, List.cons_append, List.nil_append] at hstep
            obtain ⟨out, hout⟩ := ih fin4 ((Instr.ext b0 b1 b2 b3).debug d)
              (uadd32 a (Instr.ext b0 b1 b2 b3).incr)
              (o ++ header a d ++ (Instr.ext b0 b1 b2 b3).text a)
              (by simp only [List.length_cons] at hn; omega)
            refine ⟨out, ?_⟩
            simp only [mainLoop, hstep, findsSentinel, hs, h3, if_false, if_true]
            exact hout
        · have hstep := loopBody_instr fname (Instr.short b0 b1) ⟨h3, hs⟩ fin2 d a o
          simp only [Instr.bytes, List.cons_append, List.nil_append] at hstep
          obtain ⟨out, hout⟩ := ih fin2 ((Instr.short b0 b1).debug d)
            (uadd32 a (Instr.short b0 b1).incr)
            (o ++ header a d ++ (Instr.short b0 b1).text a)
            (by simp only [List.length_cons] at hn; omega)
          refine ⟨out, ?_⟩
          simp only [mainLoop, hstep, findsSentinel_short b0 b1 fin2 hs h3]
          exact hout

/-! ## Occurrences of the epilogue -/

theorem labelLine_ne_ret (a : Nat) : labelLine a ≠ "    ret\n" := by
  intro h
  have := congrArg String.data h
  simp [labelLine] at this

theorem labelLine_ne_pop (a : Nat) : labelLine a ≠ "    pop %rbp\n" := by
  intro h
  have := congrArg String.data h
  simp [labelLine] at this

theorem labelLine_ne_debug (a : Nat) : labelLine a ≠ "    call debug\n" := by
  intro h
  have := congrArg String.data h
  simp [labelLine] at this

theorem countEpilogue_no_ret (l : List String) (h : ∀ x ∈ l, x ≠ "    ret\n") :
    countEpilogue l = 0 := by
  induction l with
  | nil => rfl
  | cons a l ih =>
    cases l with
    | nil => rfl
    | cons b t =>
      have hb : b ≠ "    ret\n" := h b (by simp)
      simp only [countEpilogue, hb, and_false, if_false, Nat.zero_add]
      exact ih (fun x hx => h x (List.mem_cons_of_mem _ hx))

theorem countEpilogue_no_pop (l : List String) (h : ∀ x ∈ l, x ≠ "    pop %rbp\n") :
    countEpilogue l = 0 := by
  induction l with
  | nil => rfl
  | cons a l ih =>
    cases l with
    | nil => rfl
    | cons b t =>
      have ha : a ≠ "    pop %rbp\n" := h a (by simp)
      simp only [countEpilogue, ha, false_and, if_false, Nat.zero_add]
      exact ih (fun x hx => h x (List.mem_cons_of_mem _ hx))

theorem countEpilogue_append (l1 l2 : List String) (h : ∀ x ∈ l2.head?, x ≠ "    ret\n") :
    countEpilogue (l1 ++ l2) = countEpilogue l1 + countEpilogue l2 := by
  induction l1 with
  | nil => simp [countEpilogue]
  | cons a l1 ih =>
    cases l1 with
    | nil =>
      cases l2 with
      | nil => rfl
      | cons b t =>
        have hb : b ≠ "    ret\n" := h b (by simp)
        simp [countEpilogue, hb]
    | cons b l1 =>
      have ih' : countEpilogue (b :: (l1 ++ l2)) =
          countEpilogue (b :: l1) + countEpilogue l2 := ih
      show (if a = "    pop %rbp\n" ∧ b = "    ret\n" then 1 else 0) +
        countEpilogue (b :: (l1 ++ l2)) = _
      rw [ih']
      simp only [countEpilogue]
      omega

theorem oneOperand_lines (t r x : Nat) (b : Byte) (a : Nat) :
    ∀ s ∈ oneOperand t r x b a,
      s.data ≠ "    ret\n".data ∧ s.data ≠ "    call debug\n".data := by
  unfold oneOperand
  split_ifs
  · split
    all_goals
      simp only [List.mem_cons, List.mem_singleton, List.not_mem_nil, or_false,
        forall_eq_or_imp, forall_eq, false_implies, implies_true, forall_const]
    all_goals simp
  all_goals
    simp only [List.mem_cons, List.mem_singleton, List.not_mem_nil, or_false,
      forall_eq_or_imp, forall_eq, false_implies, implies_true, forall_const]
  all_goals simp

theorem twoOperand_lines (r x y : Nat) :
    ∀ s ∈ twoOperand r x y,
      s.data ≠ "    ret\n".data ∧ s.data ≠ "    call debug\n".data := by
  unfold twoOperand
  split
  all_goals
    simp only [List.mem_cons, List.mem_singleton, List.not_mem_nil, or_false,
      forall_eq_or_imp, forall_eq, false_implies, implies_true, forall_const]
  all_goals simp

theorem extended_lines (t r x v : Nat) :
    ∀ s ∈ extended t r x v,
      s.data ≠ "    ret\n".data ∧ s.data ≠ "    call debug\n".data := by
  unfold extended
  split_ifs
  all_goals
    simp only [List.mem_cons, List.mem_singleton, List.not_mem_nil, or_false,
      forall_eq_or_imp, forall_eq, false_implies, implies_true, forall_const]
  all_goals simp

theorem zeroOperand_text (r d : Nat) :
    (zeroOperand r d).1 = ["    ret\n"] ∨ (zeroOperand r d).1 = [] := by
  unfold zeroOperand
  split_ifs
  · exact Or.inl (by with_reducible rfl)
  · exact Or.inr (by with_reducible rfl)
  · exact Or.inr (by with_reducible rfl)
  · exact Or.inr (by with_reducible rfl)

theorem text_ret_or_lines (i : Instr) (a : Nat) :
    i.text a = ["    ret\n"] ∨
      ∀ s ∈ i.text a, s ≠ "    ret\n" ∧ s ≠ "    call debug\n" := by
  have key : ∀ l : List String,
      (∀ s ∈ l, s.data ≠ "    ret\n".data ∧ s.data ≠ "    call debug\n".data) →
      ∀ s ∈ l, s ≠ "    ret\n" ∧ s ≠ "    call debug\n" :=
    fun l h s hs => ⟨fun e => (h s hs).1 (congrArg String.data e),
      fun e => (h s hs).2 (congrArg String.data e)⟩
  cases i with
  | short b0 b1 =>
    simp only [Instr.text]
    split_ifs
    · rcases zeroOperand_text (restBits b0) 0 with h | h
      · exact Or.inl h
      · right
        rw [h]
        intro s hs
        cases hs
    · exact Or.inr (key _ (oneOperand_lines _ _ _ _ _))
    · exact Or.inr (key _ (twoOperand_lines _ _ _))
    · right
      intro s hs
      cases hs
  | ext b0 b1 b2 b3 =>
    exact Or.inr (key _ (extended_lines _ _ _ _))

theorem text_no_debug (i : Instr) (a : Nat) : ∀ s ∈ i.text a, s ≠ "    call debug\n" := by
  rcases text_ret_or_lines i a with h | h
  · rw [h]
    intro s hs
    rw [List.mem_singleton.1 hs]
    decide
  · exact fun s hs => (h s hs).2

theorem header_no_ret (a d : Nat) : ∀ s ∈ header a d, s ≠ "    ret\n" := by
  intro s hs
  unfold header at hs
  split_ifs at hs
  · rcases List.mem_cons.1 hs with rfl | hs
    · exact labelLine_ne_ret a
    · rw [List.mem_singleton.1 hs]; decide
  · rw [List.mem_singleton.1 hs]; exact labelLine_ne_ret a

theorem header_no_pop (a d : Nat) : ∀ s ∈ header a d, s ≠ "    pop %rbp\n" := by
  intro s hs
  unfold header at hs
  split_ifs at hs
  · rcases List.mem_cons.1 hs with rfl | hs
    · exact labelLine_ne_pop a
    · rw [List.mem_singleton.1 hs]; decide
  · rw [List.mem_singleton.1 hs]; exact labelLine_ne_pop a

theorem header_head (a d : Nat) : (header a d).head? = some (labelLine a) := by
  unfold header; split_ifs <;> rfl

theorem countEpilogue_block (i : Instr) (a d : Nat) :
    countEpilogue (header a d ++ i.text a) = 0 := by
  rcases text_ret_or_lines i a with h | h
  · rw [h]
    apply countEpilogue_no_pop
    intro s hs
    rcases List.mem_append.1 hs with hs | hs
    · exact header_no_pop a d s hs
    · rw [List.mem_singleton.1 hs]; decide
  · apply countEpilogue_no_ret
    intro s hs
    rcases List.mem_append.1 hs with hs | hs
    · exact header_no_ret a d s hs
    · exact (h s hs).1

theorem bodyText_head (is : List Instr) (a d : Nat) :
    ∀ x ∈ (bodyText is a d).head?, x = labelLine a := by
  cases is with
  | nil => simp [bodyText]
  | cons i is =>
    obtain ⟨t, ht⟩ := header_eq_cons a d
    simp [bodyText, ht]

theorem countEpilogue_bodyText (is : List Instr) (a d : Nat) :
    countEpilogue (bodyText is a d) = 0 := by
  induction is generalizing a d with
  | nil => rfl
  | cons i is ih =>
    simp only [bodyText]
    rw [countEpilogue_append, countEpilogue_block, ih]
    intro x hx
    rw [bodyText_head is _ _ x hx]
    exact labelLine_ne_ret _

theorem mainLoop_no_sentinel (fname : String) (n : Nat) (fin : List Byte) (d a : Nat)
    (o : List String) (hn : fin.length < n) (hns : ¬ IsStream fin) :
    ∃ body, mainLoop fname n { fin := fin, debugMode := d, labelAddress := a, out := o } =
        some (1, o ++ body ++ [readError fname]) ∧
      countEpilogue body = 0 ∧ body.head? = some (labelLine a) := by
  induction n generalizing fin d a o with
  | zero => omega
  | succ n ih =>
    have hhead : countEpilogue (header a d) = 0 ∧ (header a d).head? = some (labelLine a) :=
      ⟨countEpilogue_no_ret _ (header_no_ret a d), header_head a d⟩
    match fin, hn, hns with
    | [], _, _ => exact ⟨header a d, by simp [mainLoop, loopBody], hhead⟩
    | [b0], _, _ => exact ⟨header a d, by simp [mainLoop, loopBody], hhead⟩
    | b0 :: b1 :: fin2, hn, hns =>
      have hs : ¬ (b0 = 0 ∧ b1 = 0) := by
        rintro ⟨rfl, rfl⟩
        exact hns ⟨[], fin2, by simp, by simp [stream]⟩
      have key : ∀ (i : Instr) (tail : List Byte), i.WellFormed →
          b0 :: b1 :: fin2 = i.bytes ++ tail → tail.length < n →
          ∃ body, mainLoop fname (n + 1)
              { fin := b0 :: b1 :: fin2, debugMode := d, labelAddress := a, out := o } =
              some (1, o ++ body ++ [readError fname]) ∧
            countEpilogue body = 0 ∧ body.head? = some (labelLine a) := by
        intro i tail hi heq hlen
        have hns' : ¬ IsStream tail := fun h => hns (heq ▸ isStream_cons i hi tail h)
        obtain ⟨body, hbody, hc, hh⟩ := ih tail (i.debug d) (uadd32 a i.incr)
          (o ++ header a d ++ i.text a) hlen hns'
        refine ⟨header a d ++ i.text a ++ body, ?_, ?_, ?_⟩
        · rw [heq]
          simp only [mainLoop, loopBody_instr fname i hi tail d a o]
          rw [hbody]
          simp only [List.append_assoc]
        · rw [countEpilogue_append, countEpilogue_block, hc]
          intro x hx
          rw [hh] at hx
          have hx2 : labelLine (uadd32 a i.incr) = x := by simpa using hx
          rw [← hx2]
          exact labelLine_ne_ret _
        · obtain ⟨t, ht⟩ := header_eq_cons a d
          simp [ht]
      by_cases h3 : operand b0 = 3
      · match fin2, hn, hns, key with
        | [], _, _, _ => exact ⟨header a d, by simp [mainLoop, loopBody, hs, h3], hhead⟩
        | [b2], _, _, _ => exact ⟨header a d, by simp [mainLoop, loopBody, hs, h3], hhead⟩
        | b2 :: b3 :: fin4, hn, hns, key =>
          exact key (Instr.ext b0 b1 b2 b3) fin4 h3 rfl
            (by simp only [List.length_cons] at hn; omega)
      · exact key (Instr.short b0 b1) fin2 ⟨h3, hs⟩ rfl
          (by simp only [List.length_cons] at hn; omega)

theorem countEpilogue_prologue : countEpilogue prologue = 0 := by decide

theorem countEpilogue_failure (fname : String) (body : List String) (a : Nat)
    (hc : countEpilogue body = 0) (hh : body.head? = some (labelLine a)) :
    countEpilogue (prologue ++ body ++ [readError fname]) = 0 := by
  rw [countEpilogue_append, countEpilogue_append, countEpilogue_prologue, hc]
  · rfl
  · intro x hx
    rw [hh] at hx
    have hx2 : labelLine a = x := by simpa using hx
    rw [← hx2]
    exact labelLine_ne_ret _
  · intro x hx
    simp only [List.head?_cons, Option.mem_def, Option.some.injEq] at hx
    rw [← hx]
    exact readError_ne_ret fname

theorem countEpilogue_success (is : List Instr) (a d : Nat) :
    countEpilogue (prologue ++ bodyText is a d ++ header (addrAfter is a) (debugAfter is d) ++
      epilogue) = 1 := by
  rw [countEpilogue_append, countEpilogue_append, countEpilogue_append, countEpilogue_prologue,
    countEpilogue_bodyText, countEpilogue_no_ret _ (header_no_ret _ _)]
  · rfl
  · intro x hx
    rw [bodyText_head is a d x hx]
    exact labelLine_ne_ret _
  · intro x hx
    rw [header_head] at hx
    have hx2 : labelLine (addrAfter is a) = x := by simpa using hx
    rw [← hx2]
    exact labelLine_ne_ret _
  · intro x hx
    simp only [epilogue, List.head?_cons, Option.mem_def, Option.some.injEq] at hx
    rw [← hx]
    decide

theorem translate_success (fname : String) (input : List Byte) (out : List String)
    (h : translate fname input = some (0, out)) :
    ∃ is, (∀ i ∈ is, i.WellFormed) ∧
      out = prologue ++ bodyText is 0 0 ++ header (addrAfter is 0) (debugAfter is 0) ++
        epilogue := by
  by_cases hst : IsStream input
  · obtain ⟨is, rest, hwf, rfl⟩ := hst
    rw [translate_stream fname is hwf rest] at h
    simp only [Option.some.injEq, Prod.mk.injEq, true_and] at h
    exact ⟨is, hwf, h.symm⟩
  · obtain ⟨body, hbody, -, -⟩ := mainLoop_no_sentinel fname (input.length + 1) input
      0 0 prologue (Nat.lt_succ_self _) hst
    have htr : translate fname input = some (1, prologue ++ body ++ [readError fname]) := hbody
    rw [htr] at h
    simp at h

theorem prologue_no_label : ∀ l ∈ prologue, ∀ a, l ≠ labelLine a := by
  intro l hl a e
  have hd := congrArg String.data e
  simp only [prologue, List.mem_cons, List.mem_singleton, List.not_mem_nil, or_false] at hl
  rcases hl with rfl | rfl | rfl | rfl <;> simp [labelLine] at hd

/-! ## The debug flag -/

theorem debug_of_isStd (i : Instr) (d : Nat) (h : i.isStd = true) : i.debug d = 1 := by
  simp only [Instr.isStd, decide_eq_true_eq] at h
  simp [Instr.debug, zeroOperand, h.1, h.2]

theorem debug_of_isCld (i : Instr) (d : Nat) (h : i.isCld = true) : i.debug d = 0 := by
  simp only [Instr.isCld, decide_eq_true_eq] at h
  simp [Instr.debug, zeroOperand, h.1, h.2]

theorem debug_of_other (i : Instr) (d : Nat) (hc : i.isCld = false) (hs : i.isStd = false) :
    i.debug d = d := by
  simp only [Instr.isCld, Instr.isStd, decide_eq_false_iff_not, not_and] at hc hs
  unfold Instr.debug zeroOperand
  by_cases h0 : operand i.first = 0
  · have h2 := hc h0
    have h3 := hs h0
    simp only [h0, if_true, h2, h3, if_false]
    split_ifs <;> rfl
  · simp only [h0, if_false]

theorem debugAfter_ne_zero (is : List Instr) (d : Nat) :
    debugAfter is d ≠ 0 ↔
      match (is.filter (fun i => i.isCld || i.isStd)).getLast? with
      | some i => i.isStd = true
      | none => d ≠ 0 := by
  induction is generalizing d with
  | nil => simp [debugAfter]
  | cons i is ih =>
    have hstep : debugAfter (i :: is) d = debugAfter is (i.debug d) := by
      simp [debugAfter]
    rw [hstep, ih]
    by_cases hp : (i.isCld || i.isStd) = true
    · have hf : List.filter (fun i => i.isCld || i.isStd) (i :: is) =
          i :: List.filter (fun i => i.isCld || i.isStd) is := by
        rw [List.filter_cons]; exact if_pos hp
      rw [hf, List.getLast?_cons]
      cases hl : (is.filter (fun i => i.isCld || i.isStd)).getLast? with
      | some j => simp
      | none =>
        simp only [Option.getD_none]
        cases hs : i.isStd with
        | true => simp [debug_of_isStd i d hs]
        | false =>
          have hc : i.isCld = true := by simpa [hs] using hp
          simp [debug_of_isCld i d hc]
    · have hp2 : (i.isCld || i.isStd) = false := by simpa using hp
      have hc : i.isCld = false := by
        cases h : i.isCld <;> simp [h] at hp2 ⊢
      have hs : i.isStd = false := by
        cases h : i.isStd <;> simp [h] at hp2 ⊢
      have hf : List.filter (fun i => i.isCld || i.isStd) (i :: is) =
          List.filter (fun i => i.isCld || i.isStd) is := by
        rw [List.filter_cons]; exact if_neg hp
      rw [hf, debug_of_other i d hc hs]

theorem debugAfter_iff (is : List Instr) :
    debugAfter is 0 ≠ 0 ↔ lastToggleIsStd is = true := by
  rw [debugAfter_ne_zero]
  unfold lastToggleIsStd
  cases (is.filter (fun i => i.isCld || i.isStd)).getLast? <;> simp

theorem after_header (l : List Instr) (a d : Nat) :
    ∃ t, bodyText l a d ++ header (addrAfter l a) (debugAfter l d) ++ epilogue =
        header a d ++ t ∧ t.head? ≠ some "    call debug\n" := by
  cases l with
  | nil =>
    exact ⟨epilogue, by simp [bodyText, addrAfter, debugAfter], by decide⟩
  | cons i l =>
    refine ⟨i.text a ++ (bodyText l (uadd32 a i.incr) (i.debug d) ++
      header (addrAfter (i :: l) a) (debugAfter (i :: l) d)) ++ epilogue, ?_, ?_⟩
    · simp [bodyText]
    · cases ht : i.text a with
      | nil =>
        obtain ⟨t, h⟩ := tail_starts_with_label l (uadd32 a i.incr) (i.debug d)
        have h2 : addrAfter (i :: l) a = addrAfter l (uadd32 a i.incr) := by
          simp [addrAfter]
        have h3 : debugAfter (i :: l) d = debugAfter l (i.debug d) := by
          simp [debugAfter]
        rw [h2, h3, h]
        simp only [List.nil_append, List.cons_append, List.head?_cons, ne_eq,
          Option.some.injEq]
        exact labelLine_ne_debug _
      | cons x t =>
        have hx : x ∈ i.text a := by rw [ht]; exact List.mem_cons_self _ _
        simp only [List.cons_append, List.head?_cons, ne_eq, Option.some.injEq]
        exact text_no_debug i a x hx

theorem header_getElem_zero (a d : Nat) (t : List String) :
    (header a d ++ t)[0]? = some (labelLine a) := by
  obtain ⟨u, hu⟩ := header_eq_cons a d
  simp [hu]

theorem header_getElem_one (a d : Nat) (t : List String)
    (ht : t.head? ≠ some "    call debug\n") :
    (header a d ++ t)[1]? = some "    call debug\n" ↔ d ≠ 0 := by
  unfold header
  by_cases hd : d = 0
  · simp only [hd, ne_eq, not_true_eq_false, if_false, List.singleton_append,
      List.getElem?_cons_succ, iff_false]
    rw [← List.head?_eq_getElem?]
    exact ht
  · simp [hd]

theorem text_of_toggle (i : Instr) (hi : i.WellFormed) (a : Nat)
    (h : i.isCld = true ∨ i.isStd = true) : i.text a = [] := by
  cases i with
  | short b0 b1 =>
    rcases h with h | h
    · simp only [Instr.isCld, Instr.first, decide_eq_true_eq] at h
      simp [Instr.text, zeroOperand, h.1, h.2]
    · simp only [Instr.isStd, Instr.first, decide_eq_true_eq] at h
      simp [Instr.text, zeroOperand, h.1, h.2]
  | ext b0 b1 b2 b3 =>
    have h3 : operand b0 = 3 := hi
    rcases h with h | h
    · simp only [Instr.isCld, Instr.first, decide_eq_true_eq] at h
      omega
    · simp only [Instr.isStd, Instr.first, decide_eq_true_eq] at h
      omega

/-! ## Instructions outside the dispatch tables -/

theorem thirdBit_lt (b : Byte) : thirdBit b < 2 :=
  Nat.lt_succ_of_le Nat.and_le_right

theorem oneOperand_nil_reg (r x : Nat) (b : Byte) (a : Nat)
    (h : r ∉ [1, 2, 3, 4, 7, 8, 9]) : oneOperand 0 r x b a = [] := by
  unfold oneOperand
  simp only [if_true]
  split <;> simp_all

theorem oneOperand_nil_imm (r x : Nat) (b : Byte) (a : Nat)
    (h : r ∉ [1, 2]) : oneOperand 1 r x b a = [] := by
  unfold oneOperand
  simp only [List.mem_cons, List.mem_singleton, List.not_mem_nil, or_false, not_or] at h
  simp [h.1, h.2]

theorem twoOperand_nil (r x y : Nat)
    (h : r ∉ [1, 2, 3, 5, 6, 7, 10, 11, 12, 13, 14, 15, 16, 17]) :
    twoOperand r x y = [] := by
  unfold twoOperand
  split <;> simp_all

theorem text_not_inTable (i : Instr) (hi : i.WellFormed) (a : Nat)
    (h : inTable (operand i.first) (thirdBit i.first) (restBits i.first) = false) :
    i.text a = [] := by
  have ht := thirdBit_lt i.first
  cases i with
  | short b0 b1 =>
    have hlt := operand_lt b0
    have h3 : operand b0 ≠ 3 := hi.1
    simp only [Instr.first] at h ht
    simp only [Instr.text]
    by_cases h0 : operand b0 = 0
    · simp only [inTable, h0, true_and, List.mem_cons, List.mem_singleton, List.not_mem_nil,
        or_false] at h
      simp only [h0, if_true, zeroOperand]
      have h1 : restBits b0 ≠ 1 := fun e => by simp [e] at h
      simp [h1]
      split_ifs <;> rfl
    · by_cases h1 : operand b0 = 1
      · simp only [h1, if_true, one_ne_zero, if_false]
        by_cases ht0 : thirdBit b0 = 0
        · rw [ht0]
          apply oneOperand_nil_reg
          intro hmem
          simp [inTable, h1, ht0, hmem] at h
        · have ht1 : thirdBit b0 = 1 := by omega
          rw [ht1]
          apply oneOperand_nil_imm
          intro hmem
          simp [inTable, h1, ht1, hmem] at h
      · have h2 : operand b0 = 2 := by omega
        simp only [h2, if_true, OfNat.ofNat_ne_zero, OfNat.ofNat_ne_one, if_false]
        apply twoOperand_nil
        intro hmem
        simp [inTable, h2, hmem] at h
  | ext b0 b1 b2 b3 =>
    have h3 : operand b0 = 3 := hi
    simp only [Instr.first] at h ht
    simp only [Instr.text, extended]
    by_cases ht0 : thirdBit b0 = 0
    · have hr1 : restBits b0 ≠ 1 := fun e => by simp [inTable, h3, ht0, e] at h
      have hr2 : restBits b0 ≠ 2 := fun e => by simp [inTable, h3, ht0, e] at h
      simp [ht0, hr1, hr2]
    · have ht1 : thirdBit b0 = 1 := by omega
      have hr1 : restBits b0 ≠ 1 := fun e => by simp [inTable, h3, ht1, e] at h
      simp [ht1, hr1]

theorem debug_not_inTable (i : Instr) (d : Nat)
    (h : inTable (operand i.first) (thirdBit i.first) (restBits i.first) = false) :
    i.debug d = d := by
  apply debug_of_other
  · simp only [Instr.isCld, decide_eq_false_iff_not, not_and]
    intro h0 h2
    simp [inTable, h0, h2] at h
  · simp only [Instr.isStd, decide_eq_false_iff_not, not_and]
    intro h0 h2
    simp [inTable, h0, h2] at h

/-! ## Claims -/

/-- C1: for an input made of `N` complete instructions followed by the
sentinel, of total length below `2 ^ 32`, and every `k ≤ N`: the loop reaches
its `k`-th iteration, the address counter there is the sum of the increments
(2 for operand class 0/1/2, 4 for class 3) of instructions `0..k-1`, it is the
number of input bytes consumed so far, the label printed next carries that
address in the final output, the counter is 0 at the start and at every
earlier iteration it is no larger. -/
theorem label_address_is_sum (fname : String) (is : List Instr)
    (hwf : ∀ i ∈ is, i.WellFormed) (hlen : (stream is).length < 4294967296)
    (k : Nat) (hk : k ≤ is.length) :
    ∃ s out, iter fname k (initState (stream is)) = .next s ∧
      s.labelAddress = ((is.take k).map Instr.incr).sum ∧
      s.labelAddress + s.fin.length = (stream is).length ∧
      translate fname (stream is) = some (0, out) ∧
      (s.out ++ [labelLine s.labelAddress]) <+: out ∧
      (initState (stream is)).labelAddress = 0 ∧
      (∀ j, j ≤ k → ∃ sj, iter fname j (initState (stream is)) = .next sj ∧
        sj.labelAddress = ((is.take j).map Instr.incr).sum ∧
        sj.labelAddress ≤ s.labelAddress) := by
  have hsum : (is.map Instr.incr).sum + 2 = (stream is).length := by
    simp [stream, flatten_length is hwf]
  have haddr : ∀ j, addrAfter (is.take j) 0 = ((is.take j).map Instr.incr).sum := by
    intro j
    have := sum_take_le_all is j
    rw [addrAfter_eq _ _ (by omega)]
    simp
  have hit := fun j hj => iter_take fname is hwf [] j hj
  simp only [List.append_nil] at hit
  have htr := translate_stream fname is hwf []
  simp only [List.append_nil] at htr
  refine ⟨_, _, hit k hk, haddr k, ?_, htr, ?_, rfl, ?_⟩
  · have hwf' : ∀ i ∈ is.take k, i.WellFormed := fun i hi => hwf i (List.mem_of_mem_take hi)
    have h1 := flatten_length (is.take k) hwf'
    have h2 := congrArg List.length (stream_split is k)
    simp only [List.length_append] at h2
    simp only [haddr k]
    omega
  · simp only
    obtain ⟨t, ht⟩ := tail_starts_with_label (is.drop k) (addrAfter (is.take k) 0)
      (debugAfter (is.take k) 0)
    rw [← addrAfter_append, ← debugAfter_append, List.take_append_drop] at ht
    have hb := bodyText_append (is.take k) (is.drop k) 0 0
    rw [List.take_append_drop] at hb
    refine ⟨t ++ epilogue, ?_⟩
    rw [hb]
    simp only [List.append_assoc] at ht ⊢
    rw [← List.append_assoc (bodyText (is.drop k) _ _), ht]
    simp
  · intro j hj
    refine ⟨_, hit j (by omega), haddr j, ?_⟩
    simp only [haddr]
    exact sum_take_le is j k hj

/-- Witness for C1: a `not`, an absolute jump and a `ret`, at `k = 2`. -/
theorem label_address_is_sum_witness :
    ∃ s out, iter "prog.x" 2 (initState (stream
        [Instr.short 0x42 0x10, Instr.ext 0xC1 0x00 0x00 0x06, Instr.short 0x01 0x00])) =
          .next s ∧
      s.labelAddress = (([Instr.short 0x42 0x10, Instr.ext 0xC1 0x00 0x00 0x06,
        Instr.short 0x01 0x00].take 2).map Instr.incr).sum ∧
      s.labelAddress + s.fin.length = (stream [Instr.short 0x42 0x10,
        Instr.ext 0xC1 0x00 0x00 0x06, Instr.short 0x01 0x00]).length ∧
      translate "prog.x" (stream [Instr.short 0x42 0x10, Instr.ext 0xC1 0x00 0x00 0x06,
        Instr.short 0x01 0x00]) = some (0, out) ∧
      (s.out ++ [labelLine s.labelAddress]) <+: out ∧
      (initState (stream [Instr.short 0x42 0x10, Instr.ext 0xC1 0x00 0x00 0x06,
        Instr.short 0x01 0x00])).labelAddress = 0 ∧
      (∀ j, j ≤ 2 → ∃ sj, iter "prog.x" j (initState (stream [Instr.short 0x42 0x10,
        Instr.ext 0xC1 0x00 0x00 0x06, Instr.short 0x01 0x00])) = .next sj ∧
        sj.labelAddress = (([Instr.short 0x42 0x10, Instr.ext 0xC1 0x00 0x00 0x06,
          Instr.short 0x01 0x00].take j).map Instr.incr).sum ∧
        sj.labelAddress ≤ s.labelAddress) :=
  label_address_is_sum "prog.x"
    [Instr.short 0x42 0x10, Instr.ext 0xC1 0x00 0x00 0x06, Instr.short 0x01 0x00]
    (by decide) (by decide) 2 (by decide)

theorem operand_one_ne_zero (b0 : Byte) (h : operand b0 = 1) : b0 ≠ 0 := by
  rintro rfl
  revert h; decide

theorem loopBody_relative (fname : String) (s : State) (b0 D : Byte) (rest : List Byte)
    (hfin : s.fin = b0 :: D :: rest) (hc : operand b0 = 1) (ht : thirdBit b0 = 1)
    (hr : restBits b0 = 1 ∨ restBits b0 = 2)
    (hA : s.labelAddress + D.val + 2 < 4294967296) :
    loopBody fname s =
      .next { fin := rest, debugMode := s.debugMode, labelAddress := s.labelAddress + 2,
              out := s.out ++ header s.labelAddress s.debugMode ++
                (if restBits b0 = 2 then
                  ["    jmp .L" ++ fmt04x (s.labelAddress + D.val) ++ "\n"]
                 else
                  ["    test $1, %r15\n",
                   "    jne .L" ++ fmt04x (s.labelAddress + D.val) ++ "\n"]) } := by
  have hne := operand_one_ne_zero b0 hc
  have h1 : uadd32 s.labelAddress 2 = s.labelAddress + 2 := by
    unfold uadd32; omega
  have h2 : usub32 (uadd32 (s.labelAddress + 2) D.val) 2 = s.labelAddress + D.val := by
    unfold usub32 uadd32; split_ifs <;> omega
  rcases hr with hr | hr <;>
    simp [loopBody, hfin, hne, hc, ht, hr, oneOperand, h1, h2]

/-- C2: a class-1 immediate-form instruction with opcode 2 (jump) or 1
(branch), read at label address `A` with second byte `D`, where
`A + D + 2 < 2 ^ 32`, targets the label of address `A + D`: opcode 2 prints
the single line `jmp .L<hex(A+D)>`, opcode 1 prints `test $1, %r15` then
`jne .L<hex(A+D)>`. -/
theorem relative_target (fname : String) (s : State) (b0 D : Byte) (rest : List Byte)
    (hfin : s.fin = b0 :: D :: rest) (hc : operand b0 = 1) (ht : thirdBit b0 = 1)
    (hr : restBits b0 = 1 ∨ restBits b0 = 2)
    (hA : s.labelAddress + D.val + 2 < 4294967296) :
    loopBody fname s =
      .next { fin := rest, debugMode := s.debugMode, labelAddress := s.labelAddress + 2,
              out := s.out ++ header s.labelAddress s.debugMode ++
                (if restBits b0 = 2 then
                  ["    jmp .L" ++ fmt04x (s.labelAddress + D.val) ++ "\n"]
                 else
                  ["    test $1, %r15\n",
                   "    jne .L" ++ fmt04x (s.labelAddress + D.val) ++ "\n"]) } :=
  loopBody_relative fname s b0 D rest hfin hc ht hr hA

/-- Witness for C2: the jump `0x62 0x10` read at address 0. -/
theorem relative_target_witness :
    loopBody "prog.x" (initState [0x62, 0x10, 0x00, 0x00]) =
      .next { fin := [0x00, 0x00], debugMode := 0, labelAddress := 0 + 2,
              out := prologue ++ header 0 0 ++
                (if restBits 0x62 = 2 then
                  ["    jmp .L" ++ fmt04x (0 + (0x10 : Byte).val) ++ "\n"]
                 else
                  ["    test $1, %r15\n",
                   "    jne .L" ++ fmt04x (0 + (0x10 : Byte).val) ++ "\n"]) } :=
  relative_target "prog.x" (initState [0x62, 0x10, 0x00, 0x00]) 0x62 0x10 [0x00, 0x00]
    rfl (by decide) (by decide) (by decide) (by decide)

/-- C3, as stated, fails: with the jump `0x62 0xFE` at label address 2 (so
`D = 254 ≥ 128`) the claim asks for the backward target `2 + (254 - 256) = 0`,
the label `.L0000`; the program prints `jmp .L0100`, the label of `2 + 254`. -/
theorem signed_displacement_counterexample :
    translate "prog.x" [0x42, 0x10, 0x62, 0xFE, 0x00, 0x00] =
        some (0, prologue ++ [".L0000:\n", "    not %rbx\n", ".L0002:\n", "    jmp .L0100\n",
          ".L0004:\n"] ++ epilogue) ∧
      translate "prog.x" [0x42, 0x10, 0x62, 0xFE, 0x00, 0x00] ≠
        some (0, prologue ++ [".L0000:\n", "    not %rbx\n", ".L0002:\n", "    jmp .L0000\n",
          ".L0004:\n"] ++ epilogue) := by
  decide

/-- C3, amended: in the class-1 immediate form (branch, opcode 1, and jump,
opcode 2) the second byte is an unsigned displacement: for every label
address `A` and every second byte `D ≥ 128` with `A + D + 2 < 2 ^ 32`, the
target printed is the label of address `A + D`, which lies after the
instruction. -/
theorem unsigned_displacement (fname : String) (s : State) (b0 D : Byte) (rest : List Byte)
    (hfin : s.fin = b0 :: D :: rest) (hc : operand b0 = 1) (ht : thirdBit b0 = 1)
    (hr : restBits b0 = 1 ∨ restBits b0 = 2) (hD : 128 ≤ D.val)
    (hA : s.labelAddress + D.val + 2 < 4294967296) :
    ∃ s', loopBody fname s = .next s' ∧
      s'.out = s.out ++ header s.labelAddress s.debugMode ++
        (if restBits b0 = 2 then
          ["    jmp .L" ++ fmt04x (s.labelAddress + D.val) ++ "\n"]
         else
          ["    test $1, %r15\n",
           "    jne .L" ++ fmt04x (s.labelAddress + D.val) ++ "\n"]) ∧
      s.labelAddress + 2 < s.labelAddress + D.val := by
  exact ⟨_, loopBody_relative fname s b0 D rest hfin hc ht hr hA, rfl, by omega⟩

/-- Witness for C3 amended: the jump `0x62 0xFE` read at address 0. -/
theorem unsigned_displacement_witness :
    ∃ s', loopBody "prog.x" (initState [0x62, 0xFE, 0x00, 0x00]) = .next s' ∧
      s'.out = prologue ++ header 0 0 ++
        (if restBits 0x62 = 2 then
          ["    jmp .L" ++ fmt04x (0 + (0xFE : Byte).val) ++ "\n"]
         else
          ["    test $1, %r15\n",
           "    jne .L" ++ fmt04x (0 + (0xFE : Byte).val) ++ "\n"]) ∧
      0 + 2 < 0 + (0xFE : Byte).val :=
  unsigned_displacement "prog.x" (initState [0x62, 0xFE, 0x00, 0x00]) 0x62 0xFE [0x00, 0x00]
    rfl (by decide) (by decide) (by decide) (by decide) (by decide)

/-- C4, as stated, fails: the byte `0x40` decodes to class 1, discriminator
0, opcode 0, which is in no table, so `0x40 0x12 0x00 0x00` prints the two
labels and the epilogue and no `not` line. -/
theorem not_example_counterexample :
    translate "prog.x" [0x40, 0x12, 0x00, 0x00] =
        some (0, prologue ++ [".L0000:\n", ".L0002:\n"] ++ epilogue) ∧
      translate "prog.x" [0x40, 0x12, 0x00, 0x00] ≠
        some (0, prologue ++ [".L0000:\n", "    not %rbx\n", ".L0002:\n"] ++ epilogue) ∧
      operand 0x40 = 1 ∧ thirdBit 0x40 = 0 ∧ restBits 0x40 = 0 := by
  decide

/-- C4, amended: every two-byte instruction that decodes to class 1,
discriminator 0, opcode 2 prints exactly one line `not <getReg64(regField1)>`;
`0x42 0x10` is such an instruction, with register field 1, and the input
`0x42 0x10 0x00 0x00` prints, after the prologue, exactly `.L0000:`,
`    not %rbx`, `.L0002:` and the epilogue. -/
theorem not_instruction (fname : String) (s : State) (b0 b1 : Byte) (rest : List Byte)
    (hfin : s.fin = b0 :: b1 :: rest) (hc : operand b0 = 1) (ht : thirdBit b0 = 0)
    (hr : restBits b0 = 2) :
    loopBody fname s =
        .next { fin := rest, debugMode := s.debugMode,
                labelAddress := uadd32 s.labelAddress 2,
                out := s.out ++ header s.labelAddress s.debugMode ++
                  ["    not " ++ getReg64 (buf1Reg1 b1) ++ "\n"] } ∧
      (operand 0x42 = 1 ∧ thirdBit 0x42 = 0 ∧ restBits 0x42 = 2 ∧ buf1Reg1 0x10 = 1) ∧
      translate fname [0x42, 0x10, 0x00, 0x00] =
        some (0, prologue ++ [".L0000:\n", "    not %rbx\n", ".L0002:\n"] ++ epilogue) := by
  have hne := operand_one_ne_zero b0 hc
  refine ⟨?_, by decide, ?_⟩
  · simp [loopBody, hfin, hne, hc, ht, hr, oneOperand]
  · rfl

/-- Witness for C4 amended: the instruction `0x42 0x30` (`not %rdx`). -/
theorem not_instruction_witness :
    loopBody "prog.x" (initState [0x42, 0x30]) =
        .next { fin := [], debugMode := 0,
                labelAddress := uadd32 0 2,
                out := prologue ++ header 0 0 ++
                  ["    not " ++ getReg64 (buf1Reg1 0x30) ++ "\n"] } ∧
      (operand 0x42 = 1 ∧ thirdBit 0x42 = 0 ∧ restBits 0x42 = 2 ∧ buf1Reg1 0x10 = 1) ∧
      translate "prog.x" [0x42, 0x10, 0x00, 0x00] =
        some (0, prologue ++ [".L0000:\n", "    not %rbx\n", ".L0002:\n"] ++ epilogue) :=
  not_instruction "prog.x" (initState [0x42, 0x30]) 0x42 0x30 [] rfl (by decide) (by decide)
    (by decide)

/-- C5: on every finite input the translation terminates (the loop returns
within `length + 1` iterations and more fuel does not change the result).
The run has status 0 and prints the epilogue exactly when the sentinel is
found at an instruction boundary (the input is complete instructions followed
by `0x00 0x00`, equivalently the forward scan `findsSentinel` succeeds);
otherwise the status is 1, the last thing
printed is the read-error message and the two epilogue lines are printed
nowhere.  Such
failures include the empty input, a single byte, and a class-3 instruction
short of operand bytes.  Two zero bytes in the operand position of a class-3
instruction do not leave the loop. -/
theorem terminates_iff_sentinel (fname : String) (input : List Byte) :
    ∃ status out, translate fname input = some (status, out) ∧
      (∀ n, input.length < n → mainLoop fname n (initState input) = some (status, out)) ∧
      (status = 0 ↔ IsStream input) ∧
      (status = 0 ↔ findsSentinel input = true) ∧
      (status = 0 → epilogue <:+ out) ∧
      (status ≠ 0 → status = 1 ∧ out.getLast? = some (readError fname) ∧
        ¬ epilogue <:+ out ∧ countEpilogue out = 0) ∧
      (¬ IsStream [] ∧ (∀ b : Byte, ¬ IsStream [b]) ∧
        (∀ b0 b1 : Byte, operand b0 = 3 → ¬ IsStream [b0, b1]) ∧
        (∀ b0 b1 b2 : Byte, operand b0 = 3 → ¬ IsStream [b0, b1, b2])) ∧
      (∀ (s : State) (b0 b1 : Byte) (rest : List Byte),
        s.fin = b0 :: b1 :: 0 :: 0 :: rest → operand b0 = 3 →
          ∃ s', loopBody fname s = .next s' ∧ s'.fin = rest) := by
  have hmono : ∀ r, translate fname input = some r →
      ∀ n, input.length < n → mainLoop fname n (initState input) = some r := by
    intro r hr n hn
    obtain ⟨k, rfl⟩ : ∃ k, n = input.length + 1 + k := ⟨n - (input.length + 1), by omega⟩
    exact mainLoop_mono fname _ k _ r hr
  have hshort : ¬ IsStream [] ∧ (∀ b : Byte, ¬ IsStream [b]) ∧
      (∀ b0 b1 : Byte, operand b0 = 3 → ¬ IsStream [b0, b1]) ∧
      (∀ b0 b1 b2 : Byte, operand b0 = 3 → ¬ IsStream [b0, b1, b2]) := by
    refine ⟨fun h => ?_, fun b h => ?_, fun b0 b1 h3 h => ?_, fun b0 b1 b2 h3 h => ?_⟩
    · simpa using isStream_length _ h
    · simpa using isStream_length _ h
    · obtain ⟨is, rest, hwf, heq⟩ := h
      cases is with
      | nil =>
        simp only [stream, List.map_nil, List.flatten_nil, List.nil_append, List.cons_append,
          List.cons.injEq] at heq
        obtain ⟨rfl, -⟩ := heq
        revert h3; decide
      | cons i is =>
        have hl := congrArg List.length heq
        have hi := hwf i (List.mem_cons_self _ _)
        cases i with
        | short c0 c1 =>
          simp [stream, Instr.bytes] at hl
        | ext c0 c1 c2 c3 =>
          simp [stream, Instr.bytes] at hl
    · obtain ⟨is, rest, hwf, heq⟩ := h
      cases is with
      | nil =>
        simp only [stream, List.map_nil, List.flatten_nil, List.nil_append, List.cons_append,
          List.cons.injEq] at heq
        obtain ⟨rfl, -⟩ := heq
        revert h3; decide
      | cons i is =>
        have hl := congrArg List.length heq
        have hi := hwf i (List.mem_cons_self _ _)
        cases i with
        | short c0 c1 =>
          simp only [stream, List.map_cons, Instr.bytes, List.flatten_cons, List.cons_append,
            List.nil_append, List.cons.injEq] at heq
          obtain ⟨rfl, -⟩ := heq
          exact hi.1 h3
        | ext c0 c1 c2 c3 =>
          simp [stream, Instr.bytes] at hl
  have hzero : ∀ (s : State) (b0 b1 : Byte) (rest : List Byte),
      s.fin = b0 :: b1 :: 0 :: 0 :: rest → operand b0 = 3 →
        ∃ s', loopBody fname s = .next s' ∧ s'.fin = rest := by
    intro s b0 b1 rest hfin h3
    have hi : (Instr.ext b0 b1 0 0).WellFormed := h3
    have hstep := loopBody_instr fname (Instr.ext b0 b1 0 0) hi rest s.debugMode s.labelAddress
      s.out
    simp only [Instr.bytes, List.cons_append, List.nil_append, ← hfin] at hstep
    exact ⟨_, hstep, rfl⟩
  have hscan : ∃ out, translate fname input =
      some (if findsSentinel input = true then 0 else 1, out) :=
    mainLoop_status fname (input.length + 1) input 0 0 prologue (Nat.lt_succ_self _)
  by_cases hst : IsStream input
  · obtain ⟨is, rest, hwf, rfl⟩ := hst
    have htr := translate_stream fname is hwf rest
    refine ⟨0, _, htr, hmono _ htr, ?_, ?_, ?_, ?_, hshort, hzero⟩
    · exact ⟨fun _ => ⟨is, rest, hwf, rfl⟩, fun _ => rfl⟩
    · obtain ⟨out, hout⟩ := hscan
      rw [htr] at hout
      by_cases hf : findsSentinel (stream is ++ rest) = true
      · exact ⟨fun _ => hf, fun _ => rfl⟩
      · simp [hf] at hout
    · intro _
      exact List.suffix_append _ _
    · intro h; exact absurd rfl h
  · obtain ⟨body, hbody, hcount, hhead⟩ := mainLoop_no_sentinel fname (input.length + 1) input
      0 0 prologue (Nat.lt_succ_self _) hst
    have htr : translate fname input = some (1, prologue ++ body ++ [readError fname]) := hbody
    refine ⟨1, _, htr, hmono _ htr, ?_, ?_, ?_, ?_, hshort, hzero⟩
    · exact ⟨fun h => absurd h (by decide), fun h => absurd h hst⟩
    · obtain ⟨out, hout⟩ := hscan
      rw [htr] at hout
      by_cases hf : findsSentinel input = true
      · simp [hf] at hout
      · exact ⟨fun h => absurd h (by decide), fun h => absurd h hf⟩
    · intro h; exact absurd h (by decide)
    · intro _
      exact ⟨rfl, by simp, not_suffix_of_readError fname _,
        countEpilogue_failure fname body 0 hcount hhead⟩

/-- C6: whenever the sentinel is reached (status 0) the output is the
four-line prologue, then the lines of the loop, which start with the label of
address 0, then the two epilogue lines `    pop %rbp`, `    ret` as the last
two lines; the pair of adjacent epilogue lines occurs exactly once in the
whole output, whatever the instructions are; no prologue line is a label
line. -/
theorem epilogue_once (fname : String) (input : List Byte) (out : List String)
    (h : translate fname input = some (0, out)) :
    (∃ body, out = prologue ++ (labelLine 0 :: body) ++ epilogue) ∧
      prologue.length = 4 ∧
      epilogue <:+ out ∧
      countEpilogue out = 1 ∧
      (∀ l ∈ prologue, ∀ a, l ≠ labelLine a) := by
  obtain ⟨is, -, rfl⟩ := translate_success fname input out h
  refine ⟨?_, rfl, List.suffix_append _ _, countEpilogue_success is 0 0, prologue_no_label⟩
  obtain ⟨t, ht⟩ := tail_starts_with_label is 0 0
  exact ⟨t, by rw [← ht]; simp only [List.append_assoc]⟩

/-- Witness for C6: a program that pops register 14 (`pop %rbp`) and then
returns (`ret`) before the sentinel. -/
theorem epilogue_once_witness :
    (∃ body, [".global test\n", "test:\n", "    push %rbp\n", "    mov %rsp, %rbp\n",
        ".L0000:\n", "    pop %rbp\n", ".L0002:\n", "    ret\n", ".L0004:\n",
        "    pop %rbp\n", "    ret\n"] = prologue ++ (labelLine 0 :: body) ++ epilogue) ∧
      prologue.length = 4 ∧
      epilogue <:+ [".global test\n", "test:\n", "    push %rbp\n", "    mov %rsp, %rbp\n",
        ".L0000:\n", "    pop %rbp\n", ".L0002:\n", "    ret\n", ".L0004:\n",
        "    pop %rbp\n", "    ret\n"] ∧
      countEpilogue [".global test\n", "test:\n", "    push %rbp\n", "    mov %rsp, %rbp\n",
        ".L0000:\n", "    pop %rbp\n", ".L0002:\n", "    ret\n", ".L0004:\n",
        "    pop %rbp\n", "    ret\n"] = 1 ∧
      (∀ l ∈ prologue, ∀ a, l ≠ labelLine a) :=
  epilogue_once "prog.x" [0x44, 0xE0, 0x01, 0x00, 0x00, 0x00] _ (by decide)

/-- C7: whenever the two bytes read at an instruction boundary are
`0x00 0x00` the loop is left by `break`, for every address counter and debug
flag; counter and flag are unchanged, and what is printed from the label on is
the label, the diagnostic line when the debug flag is set, and the epilogue.
A two-byte instruction `0x00 b1` with `b1` non-zero is skipped: no text, the
flag unchanged, the counter advanced by 2. -/
theorem sentinel_breaks (fname : String) (s : State) (rest : List Byte)
    (hfin : s.fin = 0 :: 0 :: rest) :
    loopBody fname s =
        .brk { fin := rest, debugMode := s.debugMode, labelAddress := s.labelAddress,
               out := s.out ++ header s.labelAddress s.debugMode } ∧
      (∀ n, mainLoop fname (n + 1) s =
        some (0, s.out ++ header s.labelAddress s.debugMode ++ epilogue)) ∧
      (header s.labelAddress s.debugMode =
        if s.debugMode ≠ 0 then [labelLine s.labelAddress, "    call debug\n"]
        else [labelLine s.labelAddress]) ∧
      (∀ (s2 : State) (b1 : Byte) (rest2 : List Byte), b1 ≠ 0 → s2.fin = 0 :: b1 :: rest2 →
        loopBody fname s2 =
          .next { fin := rest2, debugMode := s2.debugMode,
                  labelAddress := uadd32 s2.labelAddress 2,
                  out := s2.out ++ header s2.labelAddress s2.debugMode } ∧
        (s2.labelAddress + 2 < 4294967296 → uadd32 s2.labelAddress 2 = s2.labelAddress + 2)) := by
  have h1 : loopBody fname s =
      .brk { fin := rest, debugMode := s.debugMode, labelAddress := s.labelAddress,
             out := s.out ++ header s.labelAddress s.debugMode } := by
    simp [loopBody, hfin]
  refine ⟨h1, fun n => by simp [mainLoop, h1], rfl, ?_⟩
  intro s2 b1 rest2 hb1 hfin2
  refine ⟨?_, fun h => by unfold uadd32; omega⟩
  have h0 : operand 0 = 0 := by decide
  have hr : restBits 0 = 0 := by decide
  simp [loopBody, hfin2, hb1, h0, hr, zeroOperand]

/-- Witness for C7: the sentinel read at address 6 with the debug flag
set. -/
theorem sentinel_breaks_witness :
    loopBody "prog.x" { fin := [0, 0, 7], debugMode := 1, labelAddress := 6, out := [] } =
        .brk { fin := [7], debugMode := 1, labelAddress := 6,
               out := [] ++ header 6 1 } ∧
      (∀ n, mainLoop "prog.x" (n + 1)
          { fin := [0, 0, 7], debugMode := 1, labelAddress := 6, out := [] } =
        some (0, [] ++ header 6 1 ++ epilogue)) ∧
      (header 6 1 =
        if (1 : Nat) ≠ 0 then [labelLine 6, "    call debug\n"]
        else [labelLine 6]) ∧
      (∀ (s2 : State) (b1 : Byte) (rest2 : List Byte), b1 ≠ 0 → s2.fin = 0 :: b1 :: rest2 →
        loopBody "prog.x" s2 =
          .next { fin := rest2, debugMode := s2.debugMode,
                  labelAddress := uadd32 s2.labelAddress 2,
                  out := s2.out ++ header s2.labelAddress s2.debugMode } ∧
        (s2.labelAddress + 2 < 4294967296 → uadd32 s2.labelAddress 2 = s2.labelAddress + 2)) :=
  sentinel_breaks "prog.x" { fin := [0, 0, 7], debugMode := 1, labelAddress := 6, out := [] }
    [7] rfl

/-- C8: in a run over complete instructions followed by the sentinel, for
every `k` up to the number of instructions, the label line of instruction `k`
(the sentinel for the last `k`) is immediately followed by `    call debug`
if and only if, among the `cld` and `std` instructions decoded before it, the
most recent one is `std`; with no such instruction before it there is no
diagnostic line.  An instruction that is neither `cld` nor `std` leaves the
debug flag unchanged, `std` sets it, `cld` clears it, and both print nothing
after the label. -/
theorem debug_line_iff_std (fname : String) (is : List Instr)
    (hwf : ∀ i ∈ is, i.WellFormed) (k : Nat) (hk : k ≤ is.length) :
    ∃ s out, iter fname k (initState (stream is)) = .next s ∧
      translate fname (stream is) = some (0, out) ∧
      out[s.out.length]? = some (labelLine s.labelAddress) ∧
      (out[s.out.length + 1]? = some "    call debug\n" ↔
        lastToggleIsStd (is.take k) = true) ∧
      (s.debugMode ≠ 0 ↔ lastToggleIsStd (is.take k) = true) ∧
      ((is.take k).filter (fun i => i.isCld || i.isStd) = [] →
        out[s.out.length + 1]? ≠ some "    call debug\n") ∧
      (∀ (i : Instr) (tail : List Byte) (s0 : State), i.WellFormed →
        s0.fin = i.bytes ++ tail →
        ∃ s1, loopBody fname s0 = .next s1 ∧
          (i.isStd = true → s1.debugMode = 1 ∧
            s1.out = s0.out ++ header s0.labelAddress s0.debugMode) ∧
          (i.isCld = true → s1.debugMode = 0 ∧
            s1.out = s0.out ++ header s0.labelAddress s0.debugMode) ∧
          (i.isCld = false → i.isStd = false → s1.debugMode = s0.debugMode)) := by
  have hit := iter_take fname is hwf [] k hk
  simp only [List.append_nil] at hit
  have htr := translate_stream fname is hwf []
  simp only [List.append_nil] at htr
  have hb := bodyText_append (is.take k) (is.drop k) 0 0
  rw [List.take_append_drop] at hb
  obtain ⟨t, ht, hhead⟩ := after_header (is.drop k) (addrAfter (is.take k) 0)
    (debugAfter (is.take k) 0)
  rw [← addrAfter_append, ← debugAfter_append, List.take_append_drop] at ht
  have hout : prologue ++ bodyText is 0 0 ++ header (addrAfter is 0) (debugAfter is 0) ++
      epilogue = (prologue ++ bodyText (is.take k) 0 0) ++
        (header (addrAfter (is.take k) 0) (debugAfter (is.take k) 0) ++ t) := by
    rw [← ht, hb]
    simp only [List.append_assoc]
  have hone : (prologue ++ bodyText is 0 0 ++ header (addrAfter is 0) (debugAfter is 0) ++
      epilogue)[(prologue ++ bodyText (is.take k) 0 0).length + 1]? =
        some "    call debug\n" ↔ lastToggleIsStd (is.take k) = true := by
    rw [hout, List.getElem?_append_right (by omega)]
    have : (prologue ++ bodyText (is.take k) 0 0).length + 1 -
        (prologue ++ bodyText (is.take k) 0 0).length = 1 := by omega
    rw [this, header_getElem_one _ _ t hhead, debugAfter_iff]
  refine ⟨_, _, hit, htr, ?_, hone, debugAfter_iff _, ?_, ?_⟩
  · simp only
    rw [hout, List.getElem?_append_right (Nat.le_refl _), Nat.sub_self, header_getElem_zero]
  · intro hnone hcon
    have hstd := hone.1 hcon
    simp [lastToggleIsStd, hnone] at hstd
  · intro i tail s0 hi hfin
    have hstep := loopBody_instr fname i hi tail s0.debugMode s0.labelAddress s0.out
    rw [← hfin] at hstep
    refine ⟨_, hstep, ?_, ?_, ?_⟩
    · intro h
      exact ⟨debug_of_isStd i _ h, by simp [text_of_toggle i hi _ (Or.inr h)]⟩
    · intro h
      exact ⟨debug_of_isCld i _ h, by simp [text_of_toggle i hi _ (Or.inl h)]⟩
    · intro hc hs
      exact debug_of_other i _ hc hs

/-- Witness for C8: `std`, `ret`, `cld`, `ret`, at the label of the third
instruction. -/
theorem debug_line_iff_std_witness :
    ∃ s out, iter "prog.x" 2 (initState (stream [Instr.short 0x03 0x00,
        Instr.short 0x01 0x00, Instr.short 0x02 0x00, Instr.short 0x01 0x00])) = .next s ∧
      translate "prog.x" (stream [Instr.short 0x03 0x00,
        Instr.short 0x01 0x00, Instr.short 0x02 0x00, Instr.short 0x01 0x00]) =
          some (0, out) ∧
      out[s.out.length]? = some (labelLine s.labelAddress) ∧
      (out[s.out.length + 1]? = some "    call debug\n" ↔
        lastToggleIsStd ([Instr.short 0x03 0x00,
          Instr.short 0x01 0x00, Instr.short 0x02 0x00, Instr.short 0x01 0x00].take 2) =
            true) ∧
      (s.debugMode ≠ 0 ↔ lastToggleIsStd ([Instr.short 0x03 0x00,
          Instr.short 0x01 0x00, Instr.short 0x02 0x00, Instr.short 0x01 0x00].take 2) =
            true) ∧
      (([Instr.short 0x03 0x00, Instr.short 0x01 0x00, Instr.short 0x02 0x00,
          Instr.short 0x01 0x00].take 2).filter (fun i => i.isCld || i.isStd) = [] →
        out[s.out.length + 1]? ≠ some "    call debug\n") ∧
      (∀ (i : Instr) (tail : List Byte) (s0 : State), i.WellFormed →
        s0.fin = i.bytes ++ tail →
        ∃ s1, loopBody "prog.x" s0 = .next s1 ∧
          (i.isStd = true → s1.debugMode = 1 ∧
            s1.out = s0.out ++ header s0.labelAddress s0.debugMode) ∧
          (i.isCld = true → s1.debugMode = 0 ∧
            s1.out = s0.out ++ header s0.labelAddress s0.debugMode) ∧
          (i.isCld = false → i.isStd = false → s1.debugMode = s0.debugMode)) :=
  debug_line_iff_std "prog.x" [Instr.short 0x03 0x00, Instr.short 0x01 0x00,
    Instr.short 0x02 0x00, Instr.short 0x01 0x00] (by decide) 2 (by decide)

/-- C9: a complete, non-sentinel instruction whose (operand class,
discriminator, opcode) is in none of the dispatch tables prints no text after
its label, is not an error (the loop goes on), leaves the debug flag
unchanged, consumes its two bytes (four for class 3) and advances the address
counter by 2 (by 4 for class 3), in 32-bit unsigned arithmetic. -/
theorem unrecognised_skipped (fname : String) (i : Instr) (hi : i.WellFormed)
    (hnot : inTable (operand i.first) (thirdBit i.first) (restBits i.first) = false)
    (tail : List Byte) (s : State) (hfin : s.fin = i.bytes ++ tail) :
    loopBody fname s =
        .next { fin := tail, debugMode := s.debugMode,
                labelAddress := uadd32 s.labelAddress (if operand i.first = 3 then 4 else 2),
                out := s.out ++ header s.labelAddress s.debugMode } ∧
      i.bytes.length = (if operand i.first = 3 then 4 else 2) ∧
      (s.labelAddress + 4 < 4294967296 →
        uadd32 s.labelAddress (if operand i.first = 3 then 4 else 2) =
          s.labelAddress + (if operand i.first = 3 then 4 else 2)) := by
  have hstep := loopBody_instr fname i hi tail s.debugMode s.labelAddress s.out
  rw [← hfin] at hstep
  rw [text_not_inTable i hi _ hnot, debug_not_inTable i _ hnot, List.append_nil] at hstep
  refine ⟨hstep, bytes_length i hi, ?_⟩
  intro hlt
  unfold uadd32
  split_ifs <;> omega

/-- Witness for C9: the class-3 instruction `0xC5 0x00 0x12 0x34` (opcode 5)
read at address 0. -/
theorem unrecognised_skipped_witness :
    loopBody "prog.x" (initState [0xC5, 0x00, 0x12, 0x34, 0x00, 0x00]) =
        .next { fin := [0x00, 0x00], debugMode := 0,
                labelAddress := uadd32 0
                  (if operand (Instr.ext 0xC5 0x00 0x12 0x34).first = 3 then 4 else 2),
                out := prologue ++ header 0 0 } ∧
      (Instr.ext 0xC5 0x00 0x12 0x34).bytes.length =
        (if operand (Instr.ext 0xC5 0x00 0x12 0x34).first = 3 then 4 else 2) ∧
      (0 + 4 < 4294967296 →
        uadd32 0 (if operand (Instr.ext 0xC5 0x00 0x12 0x34).first = 3 then 4 else 2) =
          0 + (if operand (Instr.ext 0xC5 0x00 0x12 0x34).first = 3 then 4 else 2)) :=
  unrecognised_skipped "prog.x" (Instr.ext 0xC5 0x00 0x12 0x34) (by decide) (by decide)
    [0x00, 0x00] (initState [0xC5, 0x00, 0x12, 0x34, 0x00, 0x00]) rfl

/-- C10: the code at the failing inputs.  The load-byte `0x90 0x04` (register
field 2 is 4) and the store-byte `0x91 0x40` (register field 1 is 4) are
translated with the message returned by `getReg8` in the place of the register
operand, the loop goes on to the next label and the epilogue, and the exit
status is 0. -/
theorem unmapped_register_inline :
    translate "prog.x" [0x90, 0x04, 0x00, 0x00] =
        some (0, prologue ++ [".L0000:\n",
          "    mov (%rax), error, can not find register\n\n", ".L0002:\n"] ++ epilogue) ∧
      translate "prog.x" [0x91, 0x40, 0x00, 0x00] =
        some (0, prologue ++ [".L0000:\n",
          "    mov error, can not find register\n, (%rax)\n", ".L0002:\n"] ++ epilogue) ∧
      (operand 0x90 = 2 ∧ restBits 0x90 = 16 ∧ buf1Reg2 0x04 = 4) ∧
      (operand 0x91 = 2 ∧ restBits 0x91 = 17 ∧ buf1Reg1 0x40 = 4) := by
  decide

/-! ## The register tables -/

theorem getReg8_unmapped (r : Nat) (h : r ∉ [0, 1, 2, 3, 6, 7, 8, 9, 10, 11, 12, 13]) :
    getReg8 r = "error, can not find register\n" := by
  unfold getReg8
  split <;> simp_all

/-- C11: `getReg8` returns a register name (a text starting with `%`, not the
error result) exactly for the twelve indices 0, 1, 2, 3, 6, ..., 13; for 4, 5,
14, 15 and every value above 15 it returns the error result
`error, can not find register` (followed by a newline), which differs from
every register name returned by `getReg8`, `getReg16` and `getReg64`. -/
theorem getReg8_names_iff :
    (∀ r : Nat, getReg8 r ≠ "error, can not find register\n" ↔
      r ∈ [0, 1, 2, 3, 6, 7, 8, 9, 10, 11, 12, 13]) ∧
    (∀ r ∈ [0, 1, 2, 3, 6, 7, 8, 9, 10, 11, 12, 13], (getReg8 r).data.head? = some '%') ∧
    (∀ r ∈ [4, 5, 14, 15], getReg8 r = "error, can not find register\n") ∧
    (∀ r : Nat, 15 < r → getReg8 r = "error, can not find register\n") ∧
    (∀ r ∈ [0, 1, 2, 3, 6, 7, 8, 9, 10, 11, 12, 13], ∀ j ∈ List.range 16,
      getReg8 r ≠ "error, can not find register\n" ∧
      getReg16 j ≠ "error, can not find register\n" ∧
      getReg64 j ≠ "error, can not find register\n") := by
  have hvalid : ∀ r ∈ [0, 1, 2, 3, 6, 7, 8, 9, 10, 11, 12, 13],
      getReg8 r ≠ "error, can not find register\n" := by decide
  refine ⟨fun r => ⟨fun h => ?_, hvalid r⟩, by decide, by decide, fun r hr => ?_, by decide⟩
  · by_contra hmem
    exact h (getReg8_unmapped r hmem)
  · apply getReg8_unmapped
    simp only [List.mem_cons, List.mem_singleton, List.not_mem_nil, or_false]
    omega

theorem buf1Reg1_lt (b : Byte) : buf1Reg1 b < 16 :=
  Nat.lt_succ_of_le Nat.and_le_right

theorem buf1Reg2_lt (b : Byte) : buf1Reg2 b < 16 :=
  Nat.lt_succ_of_le Nat.and_le_right

theorem getReg_wide_mapped : ∀ i ∈ List.range 16,
    getReg64 i ≠ "error, can not find register\n" ∧
    getReg16 i ≠ "error, can not find register\n" := by
  decide

/-- C12: `getReg64` and `getReg16` return a register name, never the error
result, for all sixteen indices 0..15, with 14 and 15 mapped to `%rbp`, `%rsp`
and `%bp`, `%sp`; each of `getReg64`, `getReg16` (over 0..15) and `getReg8`
(over its twelve valid indices) gives different names to different indices;
the register fields of an instruction are below 16, so the translator never
gets the error result from `getReg64` or `getReg16`. -/
theorem register_tables_injective :
    (∀ i ∈ List.range 16,
      getReg64 i ≠ "error, can not find register\n" ∧ (getReg64 i).data.head? = some '%' ∧
      getReg16 i ≠ "error, can not find register\n" ∧ (getReg16 i).data.head? = some '%') ∧
    (getReg64 14 = "%rbp" ∧ getReg64 15 = "%rsp" ∧ getReg16 14 = "%bp" ∧
      getReg16 15 = "%sp") ∧
    (∀ i ∈ List.range 16, ∀ j ∈ List.range 16, getReg64 i = getReg64 j → i = j) ∧
    (∀ i ∈ List.range 16, ∀ j ∈ List.range 16, getReg16 i = getReg16 j → i = j) ∧
    (∀ i ∈ [0, 1, 2, 3, 6, 7, 8, 9, 10, 11, 12, 13],
      ∀ j ∈ [0, 1, 2, 3, 6, 7, 8, 9, 10, 11, 12, 13], getReg8 i = getReg8 j → i = j) ∧
    (∀ b : Byte, buf1Reg1 b < 16 ∧ buf1Reg2 b < 16 ∧
      getReg64 (buf1Reg1 b) ≠ "error, can not find register\n" ∧
      getReg64 (buf1Reg2 b) ≠ "error, can not find register\n" ∧
      getReg16 (buf1Reg1 b) ≠ "error, can not find register\n") := by
  refine ⟨by decide, by decide, by decide, by decide, by decide, fun b => ?_⟩
  have h1 := buf1Reg1_lt b
  have h2 := buf1Reg2_lt b
  exact ⟨h1, h2, (getReg_wide_mapped _ (List.mem_range.2 h1)).1,
    (getReg_wide_mapped _ (List.mem_range.2 h2)).1,
    (getReg_wide_mapped _ (List.mem_range.2 h1)).2⟩

/-- C20: the three tables name the same physical register for the same
index: for 6..13, `getReg64 i` is `%r` followed by the decimal `i + 2`,
`getReg16 i` is that name followed by `w` and `getReg8 i` that name followed
by `b`; for 0..5, 14 and 15, `getReg16 i` is `getReg64 i` without the letter
`r` after `%`; for 0..3, `getReg8 i` is `getReg16 i` with the final `x`
replaced by `l`. -/
theorem register_tables_agree :
    (∀ i ∈ [6, 7, 8, 9, 10, 11, 12, 13],
      getReg64 i = "%r" ++ toString (i + 2) ∧
      getReg16 i = getReg64 i ++ "w" ∧
      getReg8 i = getReg64 i ++ "b") ∧
    (∀ i ∈ [0, 1, 2, 3, 4, 5, 14, 15],
      ∃ t, getReg64 i = String.mk ('%' :: 'r' :: t) ∧ getReg16 i = String.mk ('%' :: t) ∧
        'r' ∉ t) ∧
    (∀ i ∈ [0, 1, 2, 3],
      ∃ c, getReg16 i = String.mk ['%', c, 'x'] ∧ getReg8 i = String.mk ['%', c, 'l']) ∧
    (getReg64 0 = "%rax" ∧ getReg16 0 = "%ax" ∧ getReg8 0 = "%al" ∧
      getReg64 14 = "%rbp" ∧ getReg16 14 = "%bp") := by
  refine ⟨by decide, ?_, ?_, by decide⟩
  · intro i hi
    simp only [List.mem_cons, List.mem_singleton, List.not_mem_nil, or_false] at hi
    rcases hi with rfl | rfl | rfl | rfl | rfl | rfl | rfl | rfl
    · exact ⟨['a', 'x'], by decide, by decide, by decide⟩
    · exact ⟨['b', 'x'], by decide, by decide, by decide⟩
    · exact ⟨['c', 'x'], by decide, by decide, by decide⟩
    · exact ⟨['d', 'x'], by decide, by decide, by decide⟩
    · exact ⟨['s', 'i'], by decide, by decide, by decide⟩
    · exact ⟨['d', 'i'], by decide, by decide, by decide⟩
    · exact ⟨['b', 'p'], by decide, by decide, by decide⟩
    · exact ⟨['s', 'p'], by decide, by decide, by decide⟩
  · intro i hi
    simp only [List.mem_cons, List.mem_singleton, List.not_mem_nil, or_false] at hi
    rcases hi with rfl | rfl | rfl | rfl
    · exact ⟨'a', by decide, by decide⟩
    · exact ⟨'b', by decide, by decide⟩
    · exact ⟨'c', by decide, by decide⟩
    · exact ⟨'d', by decide, by decide⟩

/-! ## Field extraction -/

theorem operand_eq (b : Byte) : operand b = b.val / 64 := by
  have h := b.isLt
  unfold operand
  rw [Nat.shiftRight_eq_div_pow]
  have h3 : (3 : Nat) = 2 ^ 2 - 1 := by decide
  rw [h3, Nat.and_pow_two_sub_one_eq_mod]
  omega

theorem thirdBit_eq (b : Byte) : thirdBit b = b.val / 32 % 2 := by
  unfold thirdBit
  rw [Nat.shiftRight_eq_div_pow]
  have h1 : (1 : Nat) = 2 ^ 1 - 1 := by decide
  rw [h1, Nat.and_pow_two_sub_one_eq_mod]

theorem restBits_eq (b : Byte) : restBits b = b.val % 32 := by
  unfold restBits
  have h1 : (31 : Nat) = 2 ^ 5 - 1 := by decide
  rw [h1, Nat.and_pow_two_sub_one_eq_mod]

theorem buf1Reg1_eq (b : Byte) : buf1Reg1 b = b.val / 16 := by
  have h := b.isLt
  unfold buf1Reg1
  rw [Nat.shiftRight_eq_div_pow]
  have h1 : (15 : Nat) = 2 ^ 4 - 1 := by decide
  rw [h1, Nat.and_pow_two_sub_one_eq_mod]
  omega

theorem buf1Reg2_eq (b : Byte) : buf1Reg2 b = b.val % 16 := by
  unfold buf1Reg2
  have h1 : (15 : Nat) = 2 ^ 4 - 1 := by decide
  rw [h1, Nat.and_pow_two_sub_one_eq_mod]

/-- C14: for every pair of bytes the decoded fields are: operand class =
`byte0 / 64` (in 0..3), discriminator = `(byte0 / 32) mod 2`, opcode =
`byte0 mod 32` (in 0..31), regField1 = `byte1 / 16` and regField2 =
`byte1 mod 16` (both in 0..15); hence `byte0 = 64 * class + 32 * discriminator
+ opcode` and `byte1 = 16 * regField1 + regField2`, and two bytes with the same
fields are equal. -/
theorem decode_fields (byte0 byte1 : Byte) :
    operand byte0 = byte0.val / 64 ∧ operand byte0 < 4 ∧
    thirdBit byte0 = byte0.val / 32 % 2 ∧ thirdBit byte0 < 2 ∧
    restBits byte0 = byte0.val % 32 ∧ restBits byte0 < 32 ∧
    buf1Reg1 byte1 = byte1.val / 16 ∧ buf1Reg1 byte1 < 16 ∧
    buf1Reg2 byte1 = byte1.val % 16 ∧ buf1Reg2 byte1 < 16 ∧
    byte0.val = 64 * operand byte0 + 32 * thirdBit byte0 + restBits byte0 ∧
    byte1.val = 16 * buf1Reg1 byte1 + buf1Reg2 byte1 ∧
    (∀ c0 : Byte, operand c0 = operand byte0 → thirdBit c0 = thirdBit byte0 →
      restBits c0 = restBits byte0 → c0 = byte0) ∧
    (∀ c1 : Byte, buf1Reg1 c1 = buf1Reg1 byte1 → buf1Reg2 c1 = buf1Reg2 byte1 →
      c1 = byte1) := by
  have h0 := byte0.isLt
  have h1 := byte1.isLt
  have e1 := operand_eq byte0
  have e2 := thirdBit_eq byte0
  have e3 := restBits_eq byte0
  have e4 := buf1Reg1_eq byte1
  have e5 := buf1Reg2_eq byte1
  refine ⟨e1, by omega, e2, by omega, e3, by omega, e4, by omega, e5, by omega, by omega,
    by omega, ?_, ?_⟩
  · intro c0 g1 g2 g3
    have hc := c0.isLt
    rw [operand_eq c0] at g1
    rw [thirdBit_eq c0] at g2
    rw [restBits_eq c0] at g3
    apply Fin.ext
    omega
  · intro c1 g1 g2
    have hc := c1.isLt
    rw [buf1Reg1_eq c1] at g1
    rw [buf1Reg2_eq c1] at g2
    apply Fin.ext
    omega

/-! ## The conversion `%04x` -/

theorem digitChar_hex : ∀ k ∈ List.range 16,
    isLowerHex (Nat.digitChar k) = true ∧ hexDigitValue (Nat.digitChar k) = k := by
  decide

theorem toDigitsCore_succ (b fuel n : Nat) (ds : List Char) :
    Nat.toDigitsCore b (fuel + 1) n ds =
      if n / b = 0 then Nat.digitChar (n % b) :: ds
      else Nat.toDigitsCore b fuel (n / b) (Nat.digitChar (n % b) :: ds) := by
  simp [Nat.toDigitsCore]

theorem toDigitsCore_hex (fuel : Nat) : ∀ (n : Nat) (ds : List Char), n < fuel →
    ∃ k, 0 < k ∧ Nat.toDigitsCore 16 fuel n ds = hexDigitsOf k n ++ ds ∧ n < 16 ^ k ∧
      (k = 1 ∨ 16 ^ k ≤ 16 * n) := by
  induction fuel with
  | zero => intro n ds h; omega
  | succ fuel ih =>
    intro n ds hn
    rw [toDigitsCore_succ]
    by_cases h0 : n / 16 = 0
    · refine ⟨1, by omega, ?_, by omega, Or.inl rfl⟩
      simp [h0, hexDigitsOf]
    · obtain ⟨k, hk, heq, hlt, hge⟩ := ih (n / 16) (Nat.digitChar (n % 16) :: ds) (by omega)
      refine ⟨k + 1, by omega, ?_, ?_, Or.inr ?_⟩
      · simp [h0, heq, hexDigitsOf]
      · rw [Nat.pow_succ]
        generalize 16 ^ k = x at hlt
        omega
      · rcases hge with rfl | hge
        · have : (16 : Nat) ^ (1 + 1) = 256 := by decide
          omega
        · rw [Nat.pow_succ]
          generalize 16 ^ k = x at hge
          omega

theorem hexDigitsOf_zero (j : Nat) : hexDigitsOf j 0 = List.replicate j '0' := by
  induction j with
  | zero => rfl
  | succ j ih =>
    rw [List.replicate_succ']
    simp [hexDigitsOf, ih]
    rfl

theorem hexDigitsOf_pad (k : Nat) : ∀ (j n : Nat), n < 16 ^ k →
    hexDigitsOf (k + j) n = List.replicate j '0' ++ hexDigitsOf k n := by
  induction k with
  | zero =>
    intro j n hn
    have h0 : n = 0 := by simpa using hn
    simp [h0, hexDigitsOf_zero, hexDigitsOf]
  | succ k ih =>
    intro j n hn
    have h1 : n / 16 < 16 ^ k := by
      rw [Nat.pow_succ] at hn
      generalize 16 ^ k = x at hn ⊢
      omega
    have h2 : k + 1 + j = (k + j) + 1 := by omega
    rw [h2]
    simp only [hexDigitsOf, ih j (n / 16) h1, List.append_assoc]

theorem hexDigitsOf_length (k n : Nat) : (hexDigitsOf k n).length = k := by
  induction k generalizing n with
  | zero => rfl
  | succ k ih => simp [hexDigitsOf, ih]

theorem hexDigitsOf_lower (k n : Nat) : ∀ c ∈ hexDigitsOf k n, isLowerHex c = true := by
  induction k generalizing n with
  | zero => intro c hc; cases hc
  | succ k ih =>
    intro c hc
    simp only [hexDigitsOf, List.mem_append, List.mem_singleton] at hc
    rcases hc with hc | rfl
    · exact ih _ c hc
    · exact (digitChar_hex _ (List.mem_range.2 (Nat.mod_lt _ (by decide)))).1

theorem hexValue_append_singleton (l : List Char) (c : Char) :
    hexValue (l ++ [c]) = 16 * hexValue l + hexDigitValue c := by
  simp [hexValue, List.foldl_append]

theorem hexValue_hexDigitsOf (k : Nat) : ∀ n, n < 16 ^ k → hexValue (hexDigitsOf k n) = n := by
  induction k with
  | zero =>
    intro n hn
    have h0 : n = 0 := by simpa using hn
    simp [h0, hexDigitsOf, hexValue]
  | succ k ih =>
    intro n hn
    have h1 : n / 16 < 16 ^ k := by
      rw [Nat.pow_succ] at hn
      generalize 16 ^ k = x at hn ⊢
      omega
    have h2 := (digitChar_hex _ (List.mem_range.2 (Nat.mod_lt n (by decide : 0 < 16)))).2
    simp only [hexDigitsOf]
    rw [hexValue_append_singleton, ih _ h1, h2]
    omega

theorem fmt04x_digits (a : Nat) :
    ∃ k, fmt04x a = String.mk (hexDigitsOf k a) ∧ 4 ≤ k ∧ a < 16 ^ k ∧
      (4 < k → 16 ^ k ≤ 16 * a) := by
  obtain ⟨k, hk, heq, hlt, hge⟩ := toDigitsCore_hex (a + 1) a [] (Nat.lt_succ_self a)
  have hd : Nat.toDigits 16 a = hexDigitsOf k a := by
    simpa [Nat.toDigits] using heq
  unfold fmt04x
  rw [hd, hexDigitsOf_length]
  by_cases h4 : k ≤ 4
  · refine ⟨4, ?_, Nat.le_refl _, ?_, fun h => absurd h (by omega)⟩
    · have h := hexDigitsOf_pad k (4 - k) a hlt
      have e : k + (4 - k) = 4 := by omega
      rw [e] at h
      rw [h]
    · exact Nat.lt_of_lt_of_le hlt (Nat.pow_le_pow_right (by decide) h4)
  · refine ⟨k, ?_, by omega, hlt, fun _ => ?_⟩
    · have e : 4 - k = 0 := by omega
      simp [e]
    · rcases hge with rfl | hge
      · omega
      · exact hge

theorem hexValue_fmt04x (a : Nat) : hexValue (fmt04x a).data = a := by
  obtain ⟨k, heq, -, hlt, -⟩ := fmt04x_digits a
  rw [heq]
  exact hexValue_hexDigitsOf k a hlt

theorem labelTag_injective (a b : Nat) (h : labelTag a = labelTag b) : a = b := by
  have hd := congrArg String.data h
  simp only [labelTag, String.data_append, List.append_cancel_left_eq] at hd
  rw [← hexValue_fmt04x a, ← hexValue_fmt04x b, hd]

theorem fmt04x_four (a : Nat) (h : a < 65536) : fmt04x a = String.mk (hexDigitsOf 4 a) := by
  obtain ⟨k, heq, h4, hlt, hge⟩ := fmt04x_digits a
  by_cases hk : k = 4
  · rw [heq, hk]
  · have h5 : 4 < k := by omega
    have h6 := hge h5
    have h7 : (16 : Nat) ^ 5 ≤ 16 ^ k := Nat.pow_le_pow_right (by decide) h5
    have h8 : (16 : Nat) ^ 5 = 1048576 := by decide
    omega

theorem prefix_tag (p : String) (a : Nat) :
    p ++ ".L" ++ fmt04x a ++ "\n" = p ++ labelTag a ++ "\n" := by
  apply String.ext
  simp only [labelTag, String.data_append, List.append_assoc]

/-- C13, as stated, fails: after 32768 two-byte instructions the address
counter is 65536 and the label definition printed for the sentinel is
`.L10000:`, with five hexadecimal digits. -/
theorem label_width_counterexample :
    ∃ out, translate "prog.x" (stream (List.replicate 32768 (Instr.short 0x01 0x00))) =
        some (0, out) ∧
      ".L10000:\n" ∈ out ∧ labelLine 65536 = ".L10000:\n" ∧
      (stream (List.replicate 32768 (Instr.short 0x01 0x00))).length = 65538 := by
  have hwf : ∀ i ∈ List.replicate 32768 (Instr.short 0x01 0x00), i.WellFormed := by
    intro i hi
    rw [List.eq_of_mem_replicate hi]
    decide
  have hsum : ((List.replicate 32768 (Instr.short 0x01 0x00)).map Instr.incr).sum = 65536 := by
    have hi : (Instr.short 0x01 0x00).incr = 2 := by decide
    rw [List.map_replicate, List.sum_replicate, hi]
    rfl
  have haddr : addrAfter (List.replicate 32768 (Instr.short 0x01 0x00)) 0 = 65536 := by
    rw [addrAfter_eq _ _ (by rw [hsum]; decide), hsum]
  have hlabel : labelLine 65536 = ".L10000:\n" := by decide
  have htr := translate_stream "prog.x" _ hwf []
  rw [List.append_nil] at htr
  refine ⟨_, htr, ?_, hlabel, ?_⟩
  · obtain ⟨t, ht⟩ := header_eq_cons
      (addrAfter (List.replicate 32768 (Instr.short 0x01 0x00)) 0)
      (debugAfter (List.replicate 32768 (Instr.short 0x01 0x00)) 0)
    rw [ht, haddr, hlabel]
    exact List.mem_append.2 (Or.inl (List.mem_append.2 (Or.inr (List.mem_cons_self _ _))))
  · have hl := flatten_length _ hwf
    simp only [stream, List.length_append, hl, hsum]
    rfl

/-- C13, amended: every label tag the translator prints, in a label
definition line, a relative branch or jump target, or an absolute jump or call
target, is `.L` followed by the address in lowercase hexadecimal, padded with
zeros to at least four digits: exactly four digits when the address is below
`0x10000` (always so for absolute targets), more above; definitions and targets
use the same formatting, so the target for an address is the tag of the label
definition of that address, and different addresses have different tags. -/
theorem label_tag_format (a : Nat) :
    (∃ k, fmt04x a = String.mk (hexDigitsOf k a) ∧ (hexDigitsOf k a).length = k ∧ 4 ≤ k ∧
      (a < 65536 → k = 4) ∧ (65536 ≤ a → 4 < k) ∧
      (∀ c ∈ hexDigitsOf k a, isLowerHex c = true) ∧ hexValue (hexDigitsOf k a) = a) ∧
    labelLine a = labelTag a ++ ":\n" ∧
    (∀ (x : Nat) (b : Byte) (A : Nat), oneOperand 1 2 x b A =
      ["    jmp " ++ labelTag (usub32 (uadd32 A b.val) 2) ++ "\n"]) ∧
    (∀ (x : Nat) (b : Byte) (A : Nat), oneOperand 1 1 x b A =
      ["    test $1, %r15\n", "    jne " ++ labelTag (usub32 (uadd32 A b.val) 2) ++ "\n"]) ∧
    (∀ x v : Nat, extended 0 1 x v = ["    jmp " ++ labelTag v ++ "\n"]) ∧
    (∀ x v : Nat, extended 0 2 x v = ["    call " ++ labelTag v ++ "\n"]) ∧
    (∀ b2 b3 : Byte, secondInstruction b2 b3 < 65536) ∧
    (∀ b : Nat, labelTag a = labelTag b → a = b) := by
  refine ⟨?_, rfl, ?_, ?_, ?_, ?_, fun b2 b3 => Nat.mod_lt _ (by decide),
    fun b => labelTag_injective a b⟩
  · obtain ⟨k, heq, h4, hlt, hge⟩ := fmt04x_digits a
    refine ⟨k, heq, hexDigitsOf_length k a, h4, ?_, ?_, hexDigitsOf_lower k a,
      hexValue_hexDigitsOf k a hlt⟩
    · intro ha
      by_contra hk
      have h5 : 4 < k := by omega
      have h6 := hge h5
      have h7 : (16 : Nat) ^ 5 ≤ 16 ^ k := Nat.pow_le_pow_right (by decide) h5
      have h8 : (16 : Nat) ^ 5 = 1048576 := by decide
      omega
    · intro ha
      by_contra hk
      have h5 : k = 4 := by omega
      rw [h5] at hlt
      have h8 : (16 : Nat) ^ 4 = 65536 := by decide
      omega
  · intro x b A
    simp only [oneOperand, if_true, one_ne_zero, if_false, OfNat.ofNat_ne_one]
    rw [← prefix_tag]
    rfl
  · intro x b A
    simp only [oneOperand, if_true, one_ne_zero, if_false]
    rw [← prefix_tag]
    rfl
  · intro x v
    simp only [extended, if_true]
    rw [← prefix_tag]
    rfl
  · intro x v
    simp only [extended, if_true, OfNat.ofNat_ne_one, if_false]
    rw [← prefix_tag]
    rfl

/-! ## The extended instructions -/

theorem secondInstruction_eq (b2 b3 : Byte) :
    secondInstruction b2 b3 = 256 * b2.val + b3.val := by
  have h2 := b2.isLt
  have h3 := b3.isLt
  have hor := @Nat.mul_add_lt_is_or 8 b3.val (show b3.val < 2 ^ 8 from h3) b2.val
  unfold secondInstruction
  rw [Nat.shiftLeft_eq, Nat.mul_comm, ← hor]
  have e : (2 : Nat) ^ 8 = 256 := by decide
  rw [e]
  omega

theorem fmtHu_eq (v : Nat) (h : v < 65536) : fmtHu v = toString v := by
  unfold fmtHu
  rw [Nat.mod_eq_of_lt h]
  rfl

/-- C15: a class-3 instruction consumes two further bytes `b2`, `b3` and
forms `V = 256 * b2 + b3`, at most 65535.  With discriminator 0, opcode 1
prints exactly `jmp .L` and the four hexadecimal digits of `V`, opcode 2 prints
exactly `call .L` and those digits; with discriminator 1, opcode 1 prints
exactly `mov $`, `V` in decimal, and the 64-bit name of register field 1.  In
every case the address counter advances by 4. -/
theorem extended_instruction (fname : String) (s : State) (b0 b1 b2 b3 : Byte)
    (rest : List Byte) (hfin : s.fin = b0 :: b1 :: b2 :: b3 :: rest)
    (hc : operand b0 = 3) :
    secondInstruction b2 b3 = 256 * b2.val + b3.val ∧
    256 * b2.val + b3.val ≤ 65535 ∧
    loopBody fname s =
      .next { fin := rest, debugMode := s.debugMode,
              labelAddress := uadd32 s.labelAddress 4,
              out := s.out ++ header s.labelAddress s.debugMode ++
                extended (thirdBit b0) (restBits b0) (buf1Reg1 b1)
                  (256 * b2.val + b3.val) } ∧
    (thirdBit b0 = 0 → restBits b0 = 1 →
      extended (thirdBit b0) (restBits b0) (buf1Reg1 b1) (256 * b2.val + b3.val) =
        ["    jmp .L" ++ String.mk (hexDigitsOf 4 (256 * b2.val + b3.val)) ++ "\n"]) ∧
    (thirdBit b0 = 0 → restBits b0 = 2 →
      extended (thirdBit b0) (restBits b0) (buf1Reg1 b1) (256 * b2.val + b3.val) =
        ["    call .L" ++ String.mk (hexDigitsOf 4 (256 * b2.val + b3.val)) ++ "\n"]) ∧
    (thirdBit b0 = 1 → restBits b0 = 1 →
      extended (thirdBit b0) (restBits b0) (buf1Reg1 b1) (256 * b2.val + b3.val) =
        ["    mov $" ++ toString (256 * b2.val + b3.val) ++ ", " ++
          getReg64 (buf1Reg1 b1) ++ "\n"]) ∧
    (s.labelAddress + 4 < 4294967296 → uadd32 s.labelAddress 4 = s.labelAddress + 4) := by
  have h2 := b2.isLt
  have h3 := b3.isLt
  have hV : 256 * b2.val + b3.val < 65536 := by omega
  have hstep := loopBody_instr fname (Instr.ext b0 b1 b2 b3) hc rest s.debugMode
    s.labelAddress s.out
  simp only [Instr.bytes, List.cons_append, List.nil_append, ← hfin, Instr.debug, Instr.first,
    hc, Instr.incr, Instr.text, secondInstruction_eq, if_true, OfNat.ofNat_ne_zero,
    if_false] at hstep
  refine ⟨secondInstruction_eq b2 b3, by omega, hstep, ?_, ?_, ?_, ?_⟩
  · intro ht hr
    simp only [extended, ht, hr, if_true, fmt04x_four _ hV]
  · intro ht hr
    simp only [extended, ht, hr, if_true, OfNat.ofNat_ne_one, if_false, fmt04x_four _ hV]
  · intro ht hr
    simp only [extended, ht, hr, if_true, one_ne_zero, if_false, fmtHu_eq _ hV]
  · intro h
    unfold uadd32
    omega

/-- Witness for C15: the absolute call `0xC2 0x00 0x12 0xab` read at
address 0. -/
theorem extended_instruction_witness :
    secondInstruction 0x12 0xab = 256 * (0x12 : Byte).val + (0xab : Byte).val ∧
    256 * (0x12 : Byte).val + (0xab : Byte).val ≤ 65535 ∧
    loopBody "prog.x" (initState [0xC2, 0x00, 0x12, 0xab, 0x00, 0x00]) =
      .next { fin := [0x00, 0x00], debugMode := 0,
              labelAddress := uadd32 0 4,
              out := prologue ++ header 0 0 ++
                extended (thirdBit 0xC2) (restBits 0xC2) (buf1Reg1 0x00)
                  (256 * (0x12 : Byte).val + (0xab : Byte).val) } ∧
    (thirdBit 0xC2 = 0 → restBits 0xC2 = 1 →
      extended (thirdBit 0xC2) (restBits 0xC2) (buf1Reg1 0x00)
          (256 * (0x12 : Byte).val + (0xab : Byte).val) =
        ["    jmp .L" ++
          String.mk (hexDigitsOf 4 (256 * (0x12 : Byte).val + (0xab : Byte).val)) ++ "\n"]) ∧
    (thirdBit 0xC2 = 0 → restBits 0xC2 = 2 →
      extended (thirdBit 0xC2) (restBits 0xC2) (buf1Reg1 0x00)
          (256 * (0x12 : Byte).val + (0xab : Byte).val) =
        ["    call .L" ++
          String.mk (hexDigitsOf 4 (256 * (0x12 : Byte).val + (0xab : Byte).val)) ++ "\n"]) ∧
    (thirdBit 0xC2 = 1 → restBits 0xC2 = 1 →
      extended (thirdBit 0xC2) (restBits 0xC2) (buf1Reg1 0x00)
          (256 * (0x12 : Byte).val + (0xab : Byte).val) =
        ["    mov $" ++ toString (256 * (0x12 : Byte).val + (0xab : Byte).val) ++ ", " ++
          getReg64 (buf1Reg1 0x00) ++ "\n"]) ∧
    ((0 : Nat) + 4 < 4294967296 → uadd32 0 4 = 0 + 4) :=
  extended_instruction "prog.x" (initState [0xC2, 0x00, 0x12, 0xab, 0x00, 0x00])
    0xC2 0x00 0x12 0xab [0x00, 0x00] rfl (by decide)

/-! ## The two-operand and one-operand instructions -/

theorem operand_ne_zero_byte (b0 : Byte) (h : operand b0 ≠ 0) : b0 ≠ 0 := by
  rintro rfl
  exact h (by decide)

theorem loopBody_two (fname : String) (s : State) (b0 b1 : Byte) (rest : List Byte)
    (hfin : s.fin = b0 :: b1 :: rest) (hc : operand b0 = 2) :
    loopBody fname s =
      .next { fin := rest, debugMode := s.debugMode,
              labelAddress := uadd32 s.labelAddress 2,
              out := s.out ++ header s.labelAddress s.debugMode ++
                twoOperand (restBits b0) (buf1Reg1 b1) (buf1Reg2 b1) } := by
  have hne := operand_ne_zero_byte b0 (by omega)
  simp [loopBody, hfin, hne, hc]

theorem loopBody_one_reg (fname : String) (s : State) (b0 b1 : Byte) (rest : List Byte)
    (hfin : s.fin = b0 :: b1 :: rest) (hc : operand b0 = 1) (ht : thirdBit b0 = 0) :
    loopBody fname s =
      .next { fin := rest, debugMode := s.debugMode,
              labelAddress := uadd32 s.labelAddress 2,
              out := s.out ++ header s.labelAddress s.debugMode ++
                oneOperand 0 (restBits b0) (buf1Reg1 b1) b1 (uadd32 s.labelAddress 2) } := by
  have hne := operand_ne_zero_byte b0 (by omega)
  simp [loopBody, hfin, hne, hc, ht]

theorem mnemonic2_some (r : Nat) (m : String) (h : mnemonic2 r = some m) :
    (r = 1 ∧ m = "add") ∨ (r = 2 ∧ m = "sub") ∨ (r = 3 ∧ m = "imul") ∨
    (r = 5 ∧ m = "and") ∨ (r = 6 ∧ m = "or") ∨ (r = 7 ∧ m = "xor") ∨
    (r = 13 ∧ m = "mov") := by
  unfold mnemonic2 at h
  split at h <;> simp_all

theorem mnemonic1_some (r : Nat) (m : String) (h : mnemonic1 r = some m) :
    (r = 1 ∧ m = "neg") ∨ (r = 2 ∧ m = "not") ∨ (r = 3 ∧ m = "push") ∨
    (r = 4 ∧ m = "pop") ∨ (r = 8 ∧ m = "inc") ∨ (r = 9 ∧ m = "dec") := by
  unfold mnemonic1 at h
  split at h <;> simp_all

theorem twoOperand_mnemonic (r : Nat) (m x y : String) (S D : Nat)
    (h : mnemonic2 r = some m) (hx : getReg64 S = x) (hy : getReg64 D = y) :
    twoOperand r S D = ["    " ++ m ++ " " ++ x ++ ", " ++ y ++ "\n"] := by
  subst hx hy
  rcases mnemonic2_some r m h with h | h | h | h | h | h | h <;>
    (obtain ⟨rfl, rfl⟩ := h
     simp only [twoOperand]
     apply congrArg (fun t => [t])
     apply String.ext
     simp only [String.data_append, List.append_assoc]
     rfl)

theorem oneOperand_mnemonic (r : Nat) (m x : String) (R : Nat) (b : Byte) (a : Nat)
    (h : mnemonic1 r = some m) (hx : getReg64 R = x) :
    oneOperand 0 r R b a = ["    " ++ m ++ " " ++ x ++ "\n"] := by
  subst hx
  rcases mnemonic1_some r m h with h | h | h | h | h | h <;>
    (obtain ⟨rfl, rfl⟩ := h
     simp only [oneOperand, if_true]
     apply congrArg (fun t => [t])
     apply String.ext
     simp only [String.data_append, List.append_assoc]
     rfl)

/-- C16: a class-2 instruction with `S` = register field 1 and `D` =
register field 2 prints, for opcodes 1, 2, 3, 5, 6, 7, 13, exactly one line
`<m> getReg64(S), getReg64(D)` with `m` = add, sub, imul, and, or, xor, mov;
opcode 14 prints `mov (getReg64(S)), getReg64(D)`, opcode 15
`mov getReg64(S), (getReg64(D))`, opcode 16 `mov (getReg64(S)), getReg8(D)` and
opcode 17 `mov getReg8(S), (getReg64(D))`.  The address advances by 2 and the
debug flag is unchanged. -/
theorem two_operand_instruction (fname : String) (s : State) (b0 b1 : Byte)
    (rest : List Byte) (hfin : s.fin = b0 :: b1 :: rest) (hc : operand b0 = 2) :
    loopBody fname s =
      .next { fin := rest, debugMode := s.debugMode,
              labelAddress := uadd32 s.labelAddress 2,
              out := s.out ++ header s.labelAddress s.debugMode ++
                twoOperand (restBits b0) (buf1Reg1 b1) (buf1Reg2 b1) } ∧
    (∀ m, mnemonic2 (restBits b0) = some m →
      twoOperand (restBits b0) (buf1Reg1 b1) (buf1Reg2 b1) =
        ["    " ++ m ++ " " ++ getReg64 (buf1Reg1 b1) ++ ", " ++ getReg64 (buf1Reg2 b1) ++
          "\n"]) ∧
    (restBits b0 = 14 →
      twoOperand (restBits b0) (buf1Reg1 b1) (buf1Reg2 b1) =
        ["    mov (" ++ getReg64 (buf1Reg1 b1) ++ "), " ++ getReg64 (buf1Reg2 b1) ++ "\n"]) ∧
    (restBits b0 = 15 →
      twoOperand (restBits b0) (buf1Reg1 b1) (buf1Reg2 b1) =
        ["    mov " ++ getReg64 (buf1Reg1 b1) ++ ", (" ++ getReg64 (buf1Reg2 b1) ++ ")\n"]) ∧
    (restBits b0 = 16 →
      twoOperand (restBits b0) (buf1Reg1 b1) (buf1Reg2 b1) =
        ["    mov (" ++ getReg64 (buf1Reg1 b1) ++ "), " ++ getReg8 (buf1Reg2 b1) ++ "\n"]) ∧
    (restBits b0 = 17 →
      twoOperand (restBits b0) (buf1Reg1 b1) (buf1Reg2 b1) =
        ["    mov " ++ getReg8 (buf1Reg1 b1) ++ ", (" ++ getReg64 (buf1Reg2 b1) ++ ")\n"]) ∧
    (s.labelAddress + 2 < 4294967296 → uadd32 s.labelAddress 2 = s.labelAddress + 2) := by
  refine ⟨loopBody_two fname s b0 b1 rest hfin hc,
    fun m hm => twoOperand_mnemonic _ m _ _ _ _ hm rfl rfl, ?_, ?_, ?_, ?_, ?_⟩
  · intro hr
    rw [hr]
    simp only [twoOperand]
  · intro hr
    rw [hr]
    simp only [twoOperand]
  · intro hr
    rw [hr]
    simp only [twoOperand]
  · intro hr
    rw [hr]
    simp only [twoOperand]
  · intro h
    unfold uadd32
    omega

/-- Witness for C16: `0x81 0x12` (`add %rbx, %rcx`) read at address 0. -/
theorem two_operand_instruction_witness :
    loopBody "prog.x" (initState [0x81, 0x12, 0x00, 0x00]) =
      .next { fin := [0x00, 0x00], debugMode := 0,
              labelAddress := uadd32 0 2,
              out := prologue ++ header 0 0 ++
                twoOperand (restBits 0x81) (buf1Reg1 0x12) (buf1Reg2 0x12) } ∧
    (∀ m, mnemonic2 (restBits 0x81) = some m →
      twoOperand (restBits 0x81) (buf1Reg1 0x12) (buf1Reg2 0x12) =
        ["    " ++ m ++ " " ++ getReg64 (buf1Reg1 0x12) ++ ", " ++ getReg64 (buf1Reg2 0x12) ++
          "\n"]) ∧
    (restBits 0x81 = 14 →
      twoOperand (restBits 0x81) (buf1Reg1 0x12) (buf1Reg2 0x12) =
        ["    mov (" ++ getReg64 (buf1Reg1 0x12) ++ "), " ++ getReg64 (buf1Reg2 0x12) ++
          "\n"]) ∧
    (restBits 0x81 = 15 →
      twoOperand (restBits 0x81) (buf1Reg1 0x12) (buf1Reg2 0x12) =
        ["    mov " ++ getReg64 (buf1Reg1 0x12) ++ ", (" ++ getReg64 (buf1Reg2 0x12) ++
          ")\n"]) ∧
    (restBits 0x81 = 16 →
      twoOperand (restBits 0x81) (buf1Reg1 0x12) (buf1Reg2 0x12) =
        ["    mov (" ++ getReg64 (buf1Reg1 0x12) ++ "), " ++ getReg8 (buf1Reg2 0x12) ++
          "\n"]) ∧
    (restBits 0x81 = 17 →
      twoOperand (restBits 0x81) (buf1Reg1 0x12) (buf1Reg2 0x12) =
        ["    mov " ++ getReg8 (buf1Reg1 0x12) ++ ", (" ++ getReg64 (buf1Reg2 0x12) ++
          ")\n"]) ∧
    ((0 : Nat) + 2 < 4294967296 → uadd32 0 2 = 0 + 2) :=
  two_operand_instruction "prog.x" (initState [0x81, 0x12, 0x00, 0x00]) 0x81 0x12
    [0x00, 0x00] rfl (by decide)

/-- C17: the three flag-setting class-2 opcodes print two lines each, the
operands in encoded order at 64-bit width: opcode 10 prints `test R1, R2` then
`setnz %r15b`, opcode 11 prints `cmp R1, R2` then `setg %r15b`, opcode 12
prints `cmp R1, R2` then `sete %r15b`.  The register they write is
`getReg8 13` and the register tested by the class-1 conditional branch
(`test $1, %r15`) is `getReg64 13`. -/
theorem flag_instructions (fname : String) (s : State) (b0 b1 : Byte)
    (rest : List Byte) (hfin : s.fin = b0 :: b1 :: rest) (hc : operand b0 = 2) :
    loopBody fname s =
      .next { fin := rest, debugMode := s.debugMode,
              labelAddress := uadd32 s.labelAddress 2,
              out := s.out ++ header s.labelAddress s.debugMode ++
                twoOperand (restBits b0) (buf1Reg1 b1) (buf1Reg2 b1) } ∧
    (restBits b0 = 10 →
      twoOperand (restBits b0) (buf1Reg1 b1) (buf1Reg2 b1) =
        ["    test " ++ getReg64 (buf1Reg1 b1) ++ ", " ++ getReg64 (buf1Reg2 b1) ++ "\n",
         "    setnz %r15b\n"]) ∧
    (restBits b0 = 11 →
      twoOperand (restBits b0) (buf1Reg1 b1) (buf1Reg2 b1) =
        ["    cmp " ++ getReg64 (buf1Reg1 b1) ++ ", " ++ getReg64 (buf1Reg2 b1) ++ "\n",
         "    setg %r15b\n"]) ∧
    (restBits b0 = 12 →
      twoOperand (restBits b0) (buf1Reg1 b1) (buf1Reg2 b1) =
        ["    cmp " ++ getReg64 (buf1Reg1 b1) ++ ", " ++ getReg64 (buf1Reg2 b1) ++ "\n",
         "    sete %r15b\n"]) ∧
    ("    setnz %r15b\n" = "    setnz " ++ getReg8 13 ++ "\n" ∧
      "    setg %r15b\n" = "    setg " ++ getReg8 13 ++ "\n" ∧
      "    sete %r15b\n" = "    sete " ++ getReg8 13 ++ "\n") ∧
    (∀ (x : Nat) (b : Byte) (a : Nat),
      (oneOperand 1 1 x b a).head? = some ("    test $1, " ++ getReg64 13 ++ "\n")) := by
  refine ⟨loopBody_two fname s b0 b1 rest hfin hc, ?_, ?_, ?_, by decide, ?_⟩
  · intro hr
    rw [hr]
    simp only [twoOperand]
  · intro hr
    rw [hr]
    simp only [twoOperand]
  · intro hr
    rw [hr]
    simp only [twoOperand]
  · intro x b a
    have e : "    test $1, " ++ getReg64 13 ++ "\n" = "    test $1, %r15\n" := by decide
    rw [e]
    simp only [oneOperand, if_true, one_ne_zero, if_false, List.head?_cons]

/-- Witness for C17: `0x8b 0x12` (`cmp %rbx, %rcx`, `setg %r15b`) read at
address 0. -/
theorem flag_instructions_witness :
    loopBody "prog.x" (initState [0x8b, 0x12, 0x00, 0x00]) =
      .next { fin := [0x00, 0x00], debugMode := 0,
              labelAddress := uadd32 0 2,
              out := prologue ++ header 0 0 ++
                twoOperand (restBits 0x8b) (buf1Reg1 0x12) (buf1Reg2 0x12) } ∧
    (restBits 0x8b = 10 →
      twoOperand (restBits 0x8b) (buf1Reg1 0x12) (buf1Reg2 0x12) =
        ["    test " ++ getReg64 (buf1Reg1 0x12) ++ ", " ++ getReg64 (buf1Reg2 0x12) ++ "\n",
         "    setnz %r15b\n"]) ∧
    (restBits 0x8b = 11 →
      twoOperand (restBits 0x8b) (buf1Reg1 0x12) (buf1Reg2 0x12) =
        ["    cmp " ++ getReg64 (buf1Reg1 0x12) ++ ", " ++ getReg64 (buf1Reg2 0x12) ++ "\n",
         "    setg %r15b\n"]) ∧
    (restBits 0x8b = 12 →
      twoOperand (restBits 0x8b) (buf1Reg1 0x12) (buf1Reg2 0x12) =
        ["    cmp " ++ getReg64 (buf1Reg1 0x12) ++ ", " ++ getReg64 (buf1Reg2 0x12) ++ "\n",
         "    sete %r15b\n"]) ∧
    ("    setnz %r15b\n" = "    setnz " ++ getReg8 13 ++ "\n" ∧
      "    setg %r15b\n" = "    setg " ++ getReg8 13 ++ "\n" ∧
      "    sete %r15b\n" = "    sete " ++ getReg8 13 ++ "\n") ∧
    (∀ (x : Nat) (b : Byte) (a : Nat),
      (oneOperand 1 1 x b a).head? = some ("    test $1, " ++ getReg64 13 ++ "\n")) :=
  flag_instructions "prog.x" (initState [0x8b, 0x12, 0x00, 0x00]) 0x8b 0x12
    [0x00, 0x00] rfl (by decide)

/-- C18: a class-1 register-form instruction (discriminator 0) with `R` =
register field 1 prints, for opcodes 1, 2, 3, 4, 8, 9, exactly one line
`<m> getReg64(R)` with `m` = neg, not, push, pop, inc, dec; opcode 7 prints
exactly `push %rdi`, `mov getReg16(R), %di`, `call outchar`, `pop %rdi` in this
order.  The text depends on the second byte only through register field 1, and
the address advances by 2. -/
theorem one_operand_register (fname : String) (s : State) (b0 b1 : Byte)
    (rest : List Byte) (hfin : s.fin = b0 :: b1 :: rest) (hc : operand b0 = 1)
    (ht : thirdBit b0 = 0) :
    loopBody fname s =
      .next { fin := rest, debugMode := s.debugMode,
              labelAddress := uadd32 s.labelAddress 2,
              out := s.out ++ header s.labelAddress s.debugMode ++
                oneOperand 0 (restBits b0) (buf1Reg1 b1) b1 (uadd32 s.labelAddress 2) } ∧
    (∀ m, mnemonic1 (restBits b0) = some m →
      oneOperand 0 (restBits b0) (buf1Reg1 b1) b1 (uadd32 s.labelAddress 2) =
        ["    " ++ m ++ " " ++ getReg64 (buf1Reg1 b1) ++ "\n"]) ∧
    (restBits b0 = 7 →
      oneOperand 0 (restBits b0) (buf1Reg1 b1) b1 (uadd32 s.labelAddress 2) =
        ["    push %rdi\n", "    mov " ++ getReg16 (buf1Reg1 b1) ++ ", %di\n",
         "    call outchar\n", "    pop %rdi\n"]) ∧
    (∀ (c1 : Byte) (a : Nat), buf1Reg1 c1 = buf1Reg1 b1 →
      oneOperand 0 (restBits b0) (buf1Reg1 c1) c1 a =
        oneOperand 0 (restBits b0) (buf1Reg1 b1) b1 (uadd32 s.labelAddress 2)) ∧
    (s.labelAddress + 2 < 4294967296 → uadd32 s.labelAddress 2 = s.labelAddress + 2) := by
  refine ⟨loopBody_one_reg fname s b0 b1 rest hfin hc ht,
    fun m hm => oneOperand_mnemonic _ m _ _ _ _ hm rfl, ?_, ?_, ?_⟩
  · intro hr
    rw [hr]
    simp only [oneOperand, if_true]
  · intro c1 a hreg
    rw [hreg]
    simp only [oneOperand, if_true]
  · intro h
    unfold uadd32
    omega

/-- Witness for C18: `0x47 0x2f` (output of register 2) read at address 0. -/
theorem one_operand_register_witness :
    loopBody "prog.x" (initState [0x47, 0x2f, 0x00, 0x00]) =
      .next { fin := [0x00, 0x00], debugMode := 0,
              labelAddress := uadd32 0 2,
              out := prologue ++ header 0 0 ++
                oneOperand 0 (restBits 0x47) (buf1Reg1 0x2f) 0x2f (uadd32 0 2) } ∧
    (∀ m, mnemonic1 (restBits 0x47) = some m →
      oneOperand 0 (restBits 0x47) (buf1Reg1 0x2f) 0x2f (uadd32 0 2) =
        ["    " ++ m ++ " " ++ getReg64 (buf1Reg1 0x2f) ++ "\n"]) ∧
    (restBits 0x47 = 7 →
      oneOperand 0 (restBits 0x47) (buf1Reg1 0x2f) 0x2f (uadd32 0 2) =
        ["    push %rdi\n", "    mov " ++ getReg16 (buf1Reg1 0x2f) ++ ", %di\n",
         "    call outchar\n", "    pop %rdi\n"]) ∧
    (∀ (c1 : Byte) (a : Nat), buf1Reg1 c1 = buf1Reg1 0x2f →
      oneOperand 0 (restBits 0x47) (buf1Reg1 c1) c1 a =
        oneOperand 0 (restBits 0x47) (buf1Reg1 0x2f) 0x2f (uadd32 0 2)) ∧
    ((0 : Nat) + 2 < 4294967296 → uadd32 0 2 = 0 + 2) :=
  one_operand_register "prog.x" (initState [0x47, 0x2f, 0x00, 0x00]) 0x47 0x2f
    [0x00, 0x00] rfl (by decide) (by decide)

/-! ## Label definition lines -/

theorem noDotStart_of_not_mem (l : List Char) (h : '.' ∉ l) (p : Char) :
    noDotStart p l = true := by
  induction l generalizing p with
  | nil => rfl
  | cons c cs ih =>
    have hc : c ≠ '.' := fun e => h (e ▸ List.mem_cons_self _ _)
    have hcs : '.' ∉ cs := fun e => h (List.mem_cons_of_mem _ e)
    simp [noDotStart, hc, ih hcs]

theorem noDotStart_append (l1 l2 : List Char) (p : Char) (h1 : noDotStart p l1 = true)
    (h2 : '.' ∉ l2) : noDotStart p (l1 ++ l2) = true := by
  induction l1 generalizing p with
  | nil => exact noDotStart_of_not_mem l2 h2 p
  | cons c cs ih =>
    simp only [noDotStart, Bool.and_eq_true] at h1
    simp only [List.cons_append, noDotStart, Bool.and_eq_true]
    exact ⟨h1.1, ih c h1.2⟩

end AssemblyTranslator
